import Mathlib

/-!
Verification development for the YAMLTest execution and validation core
(`src/runner.js` / `src/core.js`).

The JavaScript source is shallowly embedded: YAML/JSON values become the
inductive type `JVal`, process-global `process.env` becomes an explicit
association-list environment threaded through the functions, thrown
exceptions become `Except String`, and asynchronous wall-clock waiting in
the poller becomes a fuel-indexed loop in which time advances by the sleep
interval on every retry (the fetch itself is modelled as instantaneous).

External collaborators (the `RegExp` engine, the `jsonpath-plus` library,
JS `Number()` coercion, `JSON.parse`, the HTTP/command transports and
kubectl) are taken as explicit function parameters, so the theorems
quantify over every behaviour of those collaborators; a small concrete
JSONPath evaluator for plain `$.a.b` dot paths is provided to instantiate
them on concrete inputs.
-/

/-- JavaScript values as produced by the YAML/JSON parsers: `undefined` models
the JS `undefined`, the rest mirror JSON.  Objects are association lists in
insertion order (JS objects cannot carry duplicate keys). -/
inductive JVal where
  | undefined : JVal
  | null : JVal
  | bool (b : Bool) : JVal
  | num (n : Int) : JVal
  | str (s : String) : JVal
  | arr (elems : List JVal) : JVal
  | obj (fields : List (String × JVal)) : JVal

/-- JS truthiness of a value (`if (v)`): `undefined`, `null`, `false`, `0`
and `""` are falsy; every array and object is truthy. -/
def jvalTruthy : JVal → Bool
  | .undefined => false
  | .null => false
  | .bool b => b
  | .num n => n != 0
  | .str s => s != ""
  | .arr _ => true
  | .obj _ => true

/-- JS truthiness of an optional field holding a parsed value: an absent
key is `undefined`, hence falsy. -/
def jvalTruthyOpt : Option JVal → Bool
  | some v => jvalTruthy v
  | none => false

/-- JS truthiness of an optional string-valued field (`rule.jsonPath`,
`rule.header`, ...): absent or empty is falsy. -/
def strTruthy : Option String → Bool
  | some s => s != ""
  | none => false

/-- Escape one character for a JSON string literal, as `JSON.stringify`
does for the characters relevant here. -/
def jsonEscapeChar (c : Char) : String :=
  if c = '"' then "\\\""
  else if c = '\\' then "\\\\"
  else if c = '\n' then "\\n"
  else if c = '\t' then "\\t"
  else if c = '\r' then "\\r"
  else String.singleton c

/-- Escape the body of a JSON string literal. -/
def jsonEscape (s : String) : String :=
  String.join (s.data.map jsonEscapeChar)

mutual

/-- `JSON.stringify` on a `JVal`.  `JSON.stringify(undefined)` is the JS
value `undefined`; in the string-building contexts modelled here (template
literals) it renders as the text `undefined`. -/
def jsonStringify : JVal → String
  | .undefined => "undefined"
  | .null => "null"
  | .bool b => if b then "true" else "false"
  | .num n => toString n
  | .str s => "\"" ++ jsonEscape s ++ "\""
  | .arr elems => "[" ++ jsonStringifyList elems ++ "]"
  | .obj fields => "\x7b" ++ jsonStringifyFields fields ++ "\x7d"

/-- Comma-separated serialization of array elements. -/
def jsonStringifyList : List JVal → String
  | [] => ""
  | [v] => jsonStringify v
  | v :: rest => jsonStringify v ++ "," ++ jsonStringifyList rest

/-- Comma-separated serialization of object fields. -/
def jsonStringifyFields : List (String × JVal) → String
  | [] => ""
  | [(k, v)] => "\"" ++ jsonEscape k ++ "\":" ++ jsonStringify v
  | (k, v) :: rest =>
      "\"" ++ jsonEscape k ++ "\":" ++ jsonStringify v ++ "," ++ jsonStringifyFields rest

end

/-- The `actualAsString` preprocessing at the top of `compareValue`:
`typeof actual === 'string' ? actual : JSON.stringify(actual)`. -/
def actualAsString : JVal → String
  | .str s => s
  | v => jsonStringify v

mutual

/-- JS `String(v)` coercion, used when `contains` stringifies the needle
(`String(comparison.value)`): arrays join their coerced elements with
commas (`null`/`undefined` elements render empty inside arrays), plain
objects render as `[object Object]`. -/
def jsToString : JVal → String
  | .undefined => "undefined"
  | .null => "null"
  | .bool b => if b then "true" else "false"
  | .num n => toString n
  | .str s => s
  | .arr elems => jsToStringList elems
  | .obj _ => "[object Object]"

/-- Comma join of `Array.prototype.toString`. -/
def jsToStringList : List JVal → String
  | [] => ""
  | [v] => jsToStringElem v
  | v :: rest => jsToStringElem v ++ "," ++ jsToStringList rest

/-- Element coercion inside `Array.prototype.toString`: `null` and
`undefined` become the empty string, other values coerce as usual. -/
def jsToStringElem : JVal → String
  | .undefined => ""
  | .null => ""
  | .bool b => if b then "true" else "false"
  | .num n => toString n
  | .str s => s
  | .arr elems => jsToStringList elems
  | .obj _ => "[object Object]"

end

/-- Character-list prefix test: `charsPrefix pre s` is true when `pre` is
a prefix of `s`.  Models JS `s.startsWith(pre)` over the character lists
(Lean's byte-position `String.startsWith` does not reduce in the kernel). -/
def charsPrefix : List Char → List Char → Bool
  | [], _ => true
  | _ :: _, [] => false
  | a :: as, b :: bs => a == b && charsPrefix as bs

/-- JS `s.startsWith(pre)`. -/
def jsStartsWith (s pre : String) : Bool :=
  charsPrefix pre.data s.data

/-- JS `String.prototype.trim`: strip leading and trailing whitespace. -/
def jsTrim (s : String) : String :=
  ⟨((s.data.dropWhile Char.isWhitespace).reverse.dropWhile Char.isWhitespace).reverse⟩

/-- Split a character list on a separator character. -/
def splitOnChar (sep : Char) : List Char → List (List Char)
  | [] => [[]]
  | c :: cs =>
    let rest := splitOnChar sep cs
    if c == sep then [] :: rest
    else
      match rest with
      | r :: rs => (c :: r) :: rs
      | [] => [[c]]

/-- JS `s.split(".")`, used for the dot paths of the JSONPath model. -/
def jsSplitOnDot (s : String) : List String :=
  (splitOnChar '.' s.data).map String.mk

/-- JS `haystack.includes(needle)`: substring containment. -/
def jsIncludes (haystack needle : String) : Bool :=
  decide (needle.data <:+: haystack.data)

/-- Keys of a JS object in insertion order (`Object.keys`). -/
def jKeys (fields : List (String × JVal)) : List String :=
  fields.map Prod.fst

/-- Property access `obj[key]`: the first binding for the key, or JS
`undefined` when absent. -/
def jGet (fields : List (String × JVal)) (k : String) : JVal :=
  match fields.find? (fun p => p.1 == k) with
  | some p => p.2
  | none => .undefined

mutual

/-- The `deepCompare` helper of the runner: primitives by strict equality,
arrays element-wise with matching length, objects by matching key count,
key membership and recursively equal values; every cross-shape pair is
unequal.  The JS reference-equality fast path (`obj1 === obj2`) only
short-circuits pairs the structural recursion would also accept, so it is
subsumed. -/
def deepCompare : JVal → JVal → Bool
  | .undefined, .undefined => true
  | .null, .null => true
  | .bool a, .bool b => a == b
  | .num a, .num b => a == b
  | .str a, .str b => a == b
  | .arr xs, .arr ys => deepCompareArr xs ys
  | .obj f1, .obj f2 =>
      (jKeys f1).length == (jKeys f2).length && deepCompareFields f1 f2
  | _, _ => false

/-- Element-wise array comparison (false on length mismatch). -/
def deepCompareArr : List JVal → List JVal → Bool
  | [], [] => true
  | x :: xs, y :: ys => deepCompare x y && deepCompareArr xs ys
  | _, _ => false

/-- The `for (const key of keys1)` loop body: every key of the first
object must be a key of the second with a deep-equal value. -/
def deepCompareFields : List (String × JVal) → List (String × JVal) → Bool
  | [], _ => true
  | (k, v) :: rest, f2 =>
      (jKeys f2).contains k && deepCompare v (jGet f2 k) && deepCompareFields rest f2

end

/-- One comparison of the expectation language (§3 Comparison):
`{comparator, value?, negate?, matchword?}`.  `value` defaults to the JS
`undefined` when the YAML omits it. -/
structure Comparison where
  comparator : String
  value : JVal := .undefined
  negate : Bool := false
  matchword : Bool := false

/-- The raw (un-negated) boolean computed by the `switch` statement of
`compareValue`, or `none` for an unknown comparator.  The `RegExp` engine
(`regexTest pattern text`) and JS `Number()` coercion (`toNumber`, with
`none` playing NaN, for which every strict inequality is false) are
external collaborators passed as parameters. -/
def rawCompare (regexTest : String → String → Bool) (toNumber : JVal → Option Int)
    (actual : JVal) (c : Comparison) : Option Bool :=
  if c.comparator = "exists" then
    some (match actual with
          | .undefined => false
          | .null => false
          | _ => true)
  else if c.comparator = "equals" then
    some (deepCompare actual c.value)
  else if c.comparator = "contains" then
    some (jsIncludes (actualAsString actual) (jsToString c.value))
  else if c.comparator = "matches" then
    some (regexTest (jsToString c.value) (actualAsString actual))
  else if c.comparator = "greaterThan" then
    some (match toNumber actual, toNumber c.value with
          | some a, some b => a > b
          | _, _ => false)
  else if c.comparator = "lessThan" then
    some (match toNumber actual, toNumber c.value with
          | some a, some b => a < b
          | _, _ => false)
  else
    none

/-- The failure message raised by `compareValue`: the comparator name
(prefixed `not ` under negation), the JSON-serialized expected value
(omitted for `exists`), and the observed value as text. -/
def compareFailMessage (actual : JVal) (c : Comparison) (description : String) : String :=
  description ++ " comparison failed: expected to " ++
    (if c.negate then "not " ++ c.comparator else c.comparator) ++
    (if c.comparator = "exists" then "" else " " ++ jsonStringify c.value) ++
    ", found " ++ actualAsString actual

/-- The comparator engine `compareValue(actual, comparison, description)`:
computes the raw comparator boolean, inverts it when `negate` is set, and
throws a descriptive error when the final boolean is false (or when the
comparator is unknown). -/
def compareValue (regexTest : String → String → Bool) (toNumber : JVal → Option Int)
    (actual : JVal) (c : Comparison) (description : String) : Except String Unit :=
  match rawCompare regexTest toNumber actual c with
  | none => .error ("Unknown comparator: " ++ c.comparator)
  | some result =>
    let finalResult := if c.negate then !result else result
    if finalResult then .ok ()
    else .error (compareFailMessage actual c description)

/-- The shared variable store: `process.env` as an association list in
insertion order. -/
abbrev EnvStore := List (String × String)

/-- Read a variable from the store. -/
def lookupEnv (env : EnvStore) (k : String) : Option String :=
  (List.find? (fun p => p.1 == k) env).map Prod.snd

/-- Assignment `process.env[k] = v`: replaces the existing binding in
place, or appends a new one. -/
def setEnv : EnvStore → String → String → EnvStore
  | [], k, v => [(k, v)]
  | (k', v') :: rest, k, v =>
      if k' = k then (k, v) :: rest else (k', v') :: setEnv rest k v

/-- The `regex` sub-rule of an extraction rule:
`{pattern, group?, source?}`. -/
structure RegexRule where
  pattern : String
  group : Option Nat := none
  source : Option String := none

/-- One `setVars` extraction rule.  Each JS rule object carries exactly
one of these keys; absent keys are `undefined`.  The string-valued keys
(`jsonPath`, `header`) are recognised by truthiness, the flag-valued ones
by `=== true`. -/
structure SetVarRule where
  jsonPath : Option String := none
  header : Option String := none
  statusCode : Bool := false
  body : Bool := false
  stdout : Bool := false
  stderr : Bool := false
  exitCode : Bool := false
  value : Bool := false
  regex : Option RegexRule := none

/-- Rendering of a rule for the `unknown extraction rule` error message
(`JSON.stringify(rule)`).  JS serialises the keys in the order of the
source document; the model fixes the order in which `applySetVars`
inspects them. -/
def ruleStringify (r : SetVarRule) : String :=
  let parts : List String :=
    (match r.jsonPath with
     | some s => ["\"jsonPath\":" ++ jsonStringify (.str s)]
     | none => []) ++
    (match r.header with
     | some s => ["\"header\":" ++ jsonStringify (.str s)]
     | none => []) ++
    (if r.statusCode then ["\"statusCode\":true"] else []) ++
    (if r.body then ["\"body\":true"] else []) ++
    (if r.stdout then ["\"stdout\":true"] else []) ++
    (if r.stderr then ["\"stderr\":true"] else []) ++
    (if r.exitCode then ["\"exitCode\":true"] else []) ++
    (if r.value then ["\"value\":true"] else []) ++
    (match r.regex with
     | some rr => ["\"regex\":" ++ "\x7b\"pattern\":" ++ jsonStringify (.str rr.pattern) ++ "\x7d"]
     | none => [])
  "\x7b" ++ String.intercalate "," parts ++ "\x7d"

/-- The response/result data handed to `applySetVars`: the union of the
HTTP shape (`statusCode`, `headers`, `body`), the command shape
(`stdout`, `stderr`, `exitCode`, `json`) and the wait shape
(`extractedValue`).  Absent fields are the JS `undefined`. -/
structure ResultData where
  body : JVal := .undefined
  headers : List (String × String) := []
  statusCode : Option Int := none
  stdout : Option String := none
  stderr : Option String := none
  exitCode : Option Int := none
  json : JVal := .undefined
  extractedValue : JVal := .undefined

/-- Case-insensitive-by-convention header lookup
(`data.headers?.[rule.header.toLowerCase()]`): the stored header names
are already lowercase, the rule name is lowercased before lookup. -/
def headerLookup (headers : List (String × String)) (name : String) : JVal :=
  match headers.find? (fun p => p.1 == name.toLower) with
  | some p => .str p.2
  | none => .undefined

/-- The per-rule body of `applySetVars`: computes the value a rule
extracts from the result data, or the error it throws.  External
collaborators: `jsonPathEval` (the JSONPath library), `regexExec`
(`RegExp.exec`, returning the list of groups with index 0 the full match,
`none` when a group did not participate), `jsonParse` (`JSON.parse` on a
string HTTP body). -/
def extractValue (jsonPathEval : String → JVal → List JVal)
    (regexExec : String → String → Option (List (Option String)))
    (jsonParse : String → Except String JVal)
    (varName : String) (rule : SetVarRule) (data : ResultData) (testType : String) :
    Except String JVal :=
  if strTruthy rule.jsonPath then
    let jp := rule.jsonPath.getD ""
    if testType ≠ "http" ∧ testType ≠ "command" then
      .error ("setVars \"" ++ varName ++ "\": \"jsonPath\" source is not valid for " ++ testType ++ " tests")
    else
      (do
        let jsonData ← (if testType = "http" then
                          match data.body with
                          | .str s => jsonParse s
                          | b => .ok b
                        else .ok data.json)
        if ¬ jvalTruthy jsonData then
          .error ("setVars \"" ++ varName ++ "\": no JSON data available for jsonPath extraction")
        else
          match jsonPathEval jp jsonData with
          | [] => .error ("setVars \"" ++ varName ++ "\": jsonPath \"" ++ jp ++ "\" returned no results")
          | [v] => .ok v
          | results => .ok (.arr results))
  else if strTruthy rule.header then
    if testType ≠ "http" then
      .error ("setVars \"" ++ varName ++ "\": \"header\" source is only valid for http tests")
    else
      .ok (headerLookup data.headers (rule.header.getD ""))
  else if rule.statusCode then
    if testType ≠ "http" then
      .error ("setVars \"" ++ varName ++ "\": \"statusCode\" source is only valid for http tests")
    else
      .ok (match data.statusCode with
           | some n => .num n
           | none => .undefined)
  else if rule.body then
    if testType ≠ "http" then
      .error ("setVars \"" ++ varName ++ "\": \"body\" source is only valid for http tests")
    else
      .ok (match data.body with
           | .str s => .str s
           | .undefined => .undefined
           | b => .str (jsonStringify b))
  else if rule.stdout then
    if testType ≠ "command" then
      .error ("setVars \"" ++ varName ++ "\": \"stdout\" source is only valid for command tests")
    else
      .ok (match data.stdout with
           | some s => .str s
           | none => .undefined)
  else if rule.stderr then
    if testType ≠ "command" then
      .error ("setVars \"" ++ varName ++ "\": \"stderr\" source is only valid for command tests")
    else
      .ok (match data.stderr with
           | some s => .str s
           | none => .undefined)
  else if rule.exitCode then
    if testType ≠ "command" then
      .error ("setVars \"" ++ varName ++ "\": \"exitCode\" source is only valid for command tests")
    else
      .ok (match data.exitCode with
           | some n => .num n
           | none => .undefined)
  else if rule.value then
    if testType ≠ "wait" then
      .error ("setVars \"" ++ varName ++ "\": \"value\" source is only valid for wait tests")
    else
      .ok data.extractedValue
  else
    match rule.regex with
    | some rr =>
      if testType = "wait" then
        .error ("setVars \"" ++ varName ++ "\": \"regex\" source is not valid for wait tests")
      else
        let textOpt : Option String :=
          if testType = "http" then
            match data.body with
            | .str s => some s
            | .undefined => none
            | b => some (jsonStringify b)
          else if testType = "command" then
            let src := match rr.source with
                       | some s => if s = "" then "stdout" else s
                       | none => "stdout"
            if src = "stdout" then data.stdout
            else if src = "stderr" then data.stderr
            else none
          else none
        let srcName := match rr.source with
                       | some s => if s = "" then "stdout" else s
                       | none => "stdout"
        if testType = "command" ∧ srcName ≠ "stdout" ∧ srcName ≠ "stderr" then
          .error ("setVars \"" ++ varName ++ "\": regex source must be \"stdout\" or \"stderr\", got \"" ++ srcName ++ "\"")
        else
          match textOpt with
          | none => .error ("setVars \"" ++ varName ++ "\": no text available for regex extraction")
          | some text =>
            match regexExec rr.pattern text with
            | none => .error ("setVars \"" ++ varName ++ "\": regex \"" ++ rr.pattern ++ "\" did not match")
            | some groups =>
              let group := rr.group.getD 1
              match (groups.get? group).join with
              | some s => .ok (.str s)
              | none => .error ("setVars \"" ++ varName ++ "\": regex capture group " ++ toString group ++ " not found in match")
    | none =>
      .error ("setVars \"" ++ varName ++ "\": unknown extraction rule: " ++ ruleStringify rule)

/-- The coercion-to-text of an extracted value:
`typeof value === 'string' ? value : JSON.stringify(value)`. -/
def stringifyExtracted : JVal → String
  | .str s => s
  | v => jsonStringify v

/-- The `applySetVars(setVars, data, testType)` loop: for each named rule
in order, extract a value, reject `null`/`undefined`, coerce to text, trim
surrounding whitespace and publish into the store, overwriting any prior
binding.  A failing rule aborts the remaining ones, keeping the bindings
already published. -/
def applySetVars (jsonPathEval : String → JVal → List JVal)
    (regexExec : String → String → Option (List (Option String)))
    (jsonParse : String → Except String JVal)
    (setVars : List (String × SetVarRule)) (data : ResultData) (testType : String)
    (env : EnvStore) : Except String EnvStore :=
  match setVars with
  | [] => .ok env
  | (varName, rule) :: rest =>
    match extractValue jsonPathEval regexExec jsonParse varName rule data testType with
    | .error e => .error e
    | .ok value =>
      match value with
      | .undefined => .error ("setVars \"" ++ varName ++ "\": extracted value is null or undefined")
      | .null => .error ("setVars \"" ++ varName ++ "\": extracted value is null or undefined")
      | v =>
        applySetVars jsonPathEval regexExec jsonParse rest data testType
          (setEnv env varName (jsTrim (stringifyExtracted v)))

/-- Navigation of a plain dot path through objects. -/
def jsonPathNavigate : List String → JVal → Option JVal
  | [], j => some j
  | seg :: rest, .obj fields =>
      match fields.find? (fun p => p.1 == seg) with
      | some p => jsonPathNavigate rest p.2
      | none => none
  | _ :: _, _ => none

/-- A concrete instance of the external JSONPath collaborator, covering
the plain `$.a.b` dot-path queries used by the concrete claims: one match
when the navigation succeeds, no match otherwise. -/
def simpleJsonPath (path : String) (j : JVal) : List JVal :=
  if path = "$" then [j]
  else if jsStartsWith path "$." then
    match jsonPathNavigate (jsSplitOnDot (path.drop 2)) j with
    | some v => [v]
    | none => []
  else []

/-- One item of the `expect.bodyContains` list in object form
(`{value, negate?, matchword?}`).  A plain-string item behaves as
`{value: s}`.  The JS fallback `bodyContainsItem.value || bodyContainsItem`
makes an object item with an empty `value` crash on
`containsValue.startsWith`, so the theorems below assume a non-empty
needle. -/
structure BodyContainsItem where
  value : String
  negate : Bool := false
  matchword : Bool := false

/-- The `validateBodyContains` closure inside `validateHttpExpectations`:
resolves a `$NAME` needle from the variable store (a missing variable
degrades to the text `undefined`), then tests either the word-bounded
regex `\bneedle\b` (when `matchword`) or plain substring containment,
inverted by `negate`. -/
def validateBodyContains (regexTest : String → String → Bool)
    (envLookup : String → Option String) (rawBody : String)
    (item : BodyContainsItem) : Except String Unit :=
  let cv0 := item.value
  let containsValue :=
    if jsStartsWith cv0 "$" then (envLookup (cv0.drop 1)).getD "undefined" else cv0
  let hasIt :=
    if item.matchword then regexTest ("\\b" ++ containsValue ++ "\\b") rawBody
    else jsIncludes rawBody containsValue
  if (if item.negate then hasIt else !hasIt) then
    .error (if item.negate then
              "Body should not contain substring but does: \"" ++ containsValue ++ "\""
            else
              "Body does not contain substring: \"" ++ containsValue ++ "\"")
  else .ok ()

/-- The four test kinds an `executeTest` dispatch can select. -/
inductive TestKind where
  | http
  | command
  | wait
  | httpBodyComparison
deriving DecidableEq, Repr

/-- A Kubernetes selector (§3 Selector).  `nsName` models
`metadata.namespace` (`namespace` is reserved in Lean); `labels` is
`metadata.labels`, `none` when the key is absent. -/
structure SelectorM where
  kind : String
  nsName : Option String := none
  name : Option String := none
  labels : Option (List (String × String)) := none
  context : Option String := none

/-- Label set rendered as `k=v` pairs joined by commas
(`labelsToSelectorString`). -/
def labelsToSelectorStringM (labels : List (String × String)) : String :=
  String.intercalate "," (labels.map (fun p => p.1 ++ "=" ++ p.2))

/-- `getResourceDescription`: `kind/namespace/name`, the namespace
defaulting to `default` and the name falling back to the label set or
`unknown`. -/
def getResourceDescription (sel : SelectorM) : String :=
  let ns := match sel.nsName with
            | some s => if s = "" then "default" else s
            | none => "default"
  let namePart := match sel.name with
                  | some s =>
                    if s = "" then
                      match sel.labels with
                      | some ls => "with labels " ++ labelsToSelectorStringM ls
                      | none => "unknown"
                    else s
                  | none =>
                    match sel.labels with
                    | some ls => "with labels " ++ labelsToSelectorStringM ls
                    | none => "unknown"
  sel.kind ++ "/" ++ ns ++ "/" ++ namePart

/-- Whether `buildSelectorArgs` accepts the selector: it requires a truthy
`metadata.name` or a non-empty `metadata.labels` mapping and throws
otherwise. -/
def selectorValid (sel : SelectorM) : Bool :=
  strTruthy sel.name ||
    (match sel.labels with
     | some ls => ls.length > 0
     | none => false)

/-- The message `buildSelectorArgs` throws on an unusable selector. -/
def selectorErrorMessage : String :=
  "Either metadata.name or metadata.labels must be provided in Kubernetes selector"

/-- The `polling` block of a wait test. -/
structure PollingM where
  timeoutSeconds : Option Nat := none
  intervalSeconds : Option Nat := none
  maxRetries : Option Nat := none

/-- The `wait` block of a wait test. -/
structure WaitConfig where
  target : Option SelectorM := none
  jsonPath : Option String := none
  jsonPathExpectation : Option Comparison := none
  polling : Option PollingM := none

/-- Result of one iteration of the polling loop body. -/
inductive WaitStep where
  | retry
  | succeed (env : EnvStore)

/-- One iteration of the `executeKubectlWait` loop body, given the parsed
JSON the kubectl fetch produced (`none` when the command failed, printed
nothing, or printed unparsable output — all of which the surrounding
`try`/`catch` turns into a retry).  Returns `retry` for every "not yet"
path: falsy JSON, no JSONPath match (after the `$`-prefixed fallback), a
`null`/`undefined` first match, a failed `jsonPathExpectation` comparison,
an empty-string value without an expectation, and a throwing `setVars`
extraction (caught by the same `catch`).  Without a truthy `jsonPath` the
mere existence of the resource succeeds, skipping `setVars`. -/
def waitBody (jsonPathEval : String → JVal → List JVal)
    (regexExec : String → String → Option (List (Option String)))
    (jsonParse : String → Except String JVal)
    (regexTest : String → String → Bool) (toNumber : JVal → Option Int)
    (jsonPath : Option String) (jexp : Option Comparison)
    (setVars : Option (List (String × SetVarRule))) (env : EnvStore)
    (fetched : Option JVal) : WaitStep :=
  match fetched with
  | none => .retry
  | some j =>
    if ¬ jvalTruthy j then .retry
    else if strTruthy jsonPath then
      let jp := jsonPath.getD ""
      let matchList :=
        match jsonPathEval jp j with
        | [] => jsonPathEval ("$" ++ jp) j
        | ms => ms
      match matchList with
      | [] => .retry
      | v :: _ =>
        match v with
        | .null => .retry
        | .undefined => .retry
        | v =>
          let proceed : Bool :=
            match jexp with
            | some e =>
              match compareValue regexTest toNumber v e ("JSONPath " ++ jp) with
              | .ok _ => true
              | .error _ => false
            | none =>
              match v with
              | .str s => s ≠ ""
              | _ => true
          if proceed then
            match setVars with
            | some sv =>
              match applySetVars jsonPathEval regexExec jsonParse sv
                      { extractedValue := v } "wait" env with
              | .ok env' => .succeed env'
              | .error _ => .retry
            | none => .succeed env
          else .retry
    else .succeed env

/-- The bounded polling loop of `executeKubectlWait`, modelled with the
wall clock starting at 0 and advancing by `intervalMs` on every retry
(the fetch is instantaneous): while `now < deadline`, a configured
`maxRetries` that the retry counter has reached throws the
retries-exhausted error, otherwise the body runs; a retry sleeps and loops.
Reaching the deadline throws `timeoutMsg`.  `fuel` bounds the recursion;
`none` means the fuel ran out before the loop exited. -/
def waitLoop (body : Nat → WaitStep) (deadline intervalMs : Nat)
    (maxRetries : Option Nat) (timeoutMsg : String)
    (retriesMsgOf : Nat → String) :
    Nat → Nat → Nat → Option (Except String EnvStore)
  | 0, _, _ => none
  | fuel + 1, now, rc =>
    if now < deadline then
      match maxRetries with
      | some m =>
        if rc ≥ m then some (.error (retriesMsgOf m))
        else
          match body rc with
          | .succeed env' => some (.ok env')
          | .retry =>
            waitLoop body deadline intervalMs maxRetries timeoutMsg retriesMsgOf
              fuel (now + intervalMs) (rc + 1)
      | none =>
        match body rc with
        | .succeed env' => some (.ok env')
        | .retry =>
          waitLoop body deadline intervalMs maxRetries timeoutMsg retriesMsgOf
            fuel (now + intervalMs) (rc + 1)
    else some (.error timeoutMsg)

/-- The timeout error message of `executeKubectlWait`: names the timeout,
the resource, the JSONPath (when configured) and the expectation (when
configured). -/
def waitTimeoutMessage (timeoutSeconds : Nat) (resourceDescription : String)
    (jsonPath : Option String) (jexp : Option Comparison) : String :=
  let base := "Timed-out (" ++ toString timeoutSeconds ++ "s) waiting for " ++ resourceDescription
  if strTruthy jsonPath then
    let withPath := base ++ " → " ++ jsonPath.getD ""
    match jexp with
    | some e =>
      withPath ++ " to " ++
        (if e.negate then "not " ++ e.comparator else e.comparator) ++
        (if e.comparator = "exists" then "" else " " ++ jsonStringify e.value)
    | none => withPath
  else base

/-- The retries-exhausted error message of `executeKubectlWait`. -/
def waitRetriesMessage (m : Nat) (resourceDescription : String) : String :=
  "Maximum retries (" ++ toString m ++ ") exceeded while waiting for " ++ resourceDescription

/-- The `setVars` validation at the top of `executeKubectlWait`: the first
rule requesting the `value` source while the wait has no truthy
`jsonPath`, if any. -/
def badValueRuleOf (setVars : Option (List (String × SetVarRule)))
    (jsonPath : Option String) : Option (String × SetVarRule) :=
  match setVars with
  | some sv => sv.find? (fun p => p.2.value && !(strTruthy jsonPath))
  | none => none

/-- The effective `timeoutSeconds` of a wait test
(`polling?.timeoutSeconds ?? 60`). -/
def waitTimeoutOf (config : WaitConfig) : Nat :=
  match config.polling with
  | some p => p.timeoutSeconds.getD 60
  | none => 60

/-- The effective `intervalSeconds` of a wait test
(`polling?.intervalSeconds ?? 2`). -/
def waitIntervalOf (config : WaitConfig) : Nat :=
  match config.polling with
  | some p => p.intervalSeconds.getD 2
  | none => 2

/-- The optional `maxRetries` ceiling of a wait test. -/
def waitMaxRetriesOf (config : WaitConfig) : Option Nat :=
  match config.polling with
  | some p => p.maxRetries
  | none => none

/-- `executeKubectlWait(config, setVars)`: validates the target block, the
`value`-requires-`jsonPath` constraint on `setVars` and the selector, then
runs the polling loop with `timeoutSeconds` (default 60) as deadline,
`intervalSeconds` (default 2) as sleep and the optional `maxRetries`
ceiling.  `fetch i` is the parsed output of the i-th kubectl fetch. -/
def executeKubectlWaitModel (jsonPathEval : String → JVal → List JVal)
    (regexExec : String → String → Option (List (Option String)))
    (jsonParse : String → Except String JVal)
    (regexTest : String → String → Bool) (toNumber : JVal → Option Int)
    (fetch : Nat → Option JVal)
    (config : WaitConfig) (setVars : Option (List (String × SetVarRule)))
    (env : EnvStore) (fuel : Nat) : Option (Except String EnvStore) :=
  match config.target with
  | none => some (.error "target block required for kubectl-wait")
  | some target =>
    match badValueRuleOf setVars config.jsonPath with
    | some p =>
      some (.error ("setVars \"" ++ p.1 ++
        "\": \"value\" extraction requires \"jsonPath\" to be defined in the wait config"))
    | none =>
      if ¬ selectorValid target then some (.error selectorErrorMessage)
      else
        let rd := getResourceDescription target
        waitLoop
          (fun i => waitBody jsonPathEval regexExec jsonParse regexTest toNumber
                      config.jsonPath config.jsonPathExpectation setVars env (fetch i))
          (waitTimeoutOf config * 1000) (waitIntervalOf config * 1000) (waitMaxRetriesOf config)
          (waitTimeoutMessage (waitTimeoutOf config) rd config.jsonPath config.jsonPathExpectation)
          (fun m => waitRetriesMessage m rd)
          fuel 0 0

/-- A test definition as the batch runner sees it: the naming fields, the
retry budget (a number when `typeof def.retries === 'number'`, otherwise
absent and treated as 0). -/
structure TestDefM where
  name : Option String := none
  test_title : Option String := none
  retries : Option Int := none

/-- JS `a || b` on an optional string: a missing or empty first operand
falls through. -/
def strOr (a : Option String) (b : String) : String :=
  match a with
  | some s => if s = "" then b else s
  | none => b

/-- The displayed test name:
`def.name || def.test_title || ` `` `test-${index+1}` ``. -/
def testNameOf (d : TestDefM) (index : Nat) : String :=
  strOr d.name (strOr d.test_title ("test-" ++ toString (index + 1)))

/-- The effective retry count (`typeof def.retries === 'number' ? def.retries : 0`). -/
def retriesOf (d : TestDefM) : Int :=
  d.retries.getD 0

/-- How many attempts the retry loop `for (attempt = 0; attempt <= retries; ...)`
makes: `retries + 1`, clamped at 0 for a negative budget. -/
def allowedAttempts (d : TestDefM) : Nat :=
  (retriesOf d + 1).toNat

/-- One per-test outcome recorded by the runner (`durationMs`, pure
wall-clock, is not modelled).  `skipped` models the presence of the
`skipped: true` marker. -/
structure TestOutcome where
  name : String
  passed : Bool
  error : Option String
  attempts : Int
  skipped : Bool := false

/-- The first attempt index on which `executeTest` resolves, among the
`n` attempts the loop makes.  `ex a = none` means attempt `a` succeeded,
`ex a = some msg` that it threw `msg`. -/
def firstSuccess (ex : Nat → Option String) (n : Nat) : Option Nat :=
  (List.range n).find? (fun a => (ex a).isNone)

/-- `runSingleTest(def, index)`: retry `executeTest` until the first
success; report `attempts = a + 1` for a success on attempt `a`, else a
failure carrying the last error and `attempts = retries + 1`. -/
def runSingleTest (d : TestDefM) (index : Nat) (ex : Nat → Option String) : TestOutcome :=
  let n := allowedAttempts d
  match firstSuccess ex n with
  | some a =>
    { name := testNameOf d index, passed := true, error := none, attempts := (a : Int) + 1 }
  | none =>
    let lastError := if n = 0 then "Unknown error"
                     else match ex (n - 1) with
                          | some msg => msg
                          | none => "Unknown error"
    { name := testNameOf d index, passed := false, error := some lastError,
      attempts := retriesOf d + 1 }

/-- The outcome recorded for a definition skipped by fail-fast. -/
def skippedOutcome (d : TestDefM) (index : Nat) : TestOutcome :=
  { name := testNameOf d index, passed := false,
    error := some "Skipped due to previous failure", attempts := 0, skipped := true }

/-- The skipped tail the runner appends after the first failure. -/
def skippedList : List TestDefM → Nat → List TestOutcome
  | [], _ => []
  | d :: rest, i => skippedOutcome d i :: skippedList rest (i + 1)

/-- The sequential loop of `runTests`: run each definition in order; on
the first failed outcome, append a skipped outcome for every remaining
definition and stop. -/
def runTestsGo (exec : Nat → Nat → Option String) : List TestDefM → Nat → List TestOutcome
  | [], _ => []
  | d :: rest, i =>
    let r := runSingleTest d i (exec i)
    if r.passed then r :: runTestsGo exec rest (i + 1)
    else r :: skippedList rest (i + 1)

/-- The aggregate result of a batch run. -/
structure RunResult where
  total : Nat
  passed : Nat
  failed : Nat
  skipped : Nat
  results : List TestOutcome

/-- `runTests`: run the batch fail-fast and count passed
(`r.passed`), failed (`!r.passed && !r.skipped`) and skipped outcomes.
`exec i a` is the result of attempt `a` of definition `i`. -/
def runTests (defs : List TestDefM) (exec : Nat → Nat → Option String) : RunResult :=
  let results := runTestsGo exec defs 0
  { total := defs.length
  , passed := (results.filter (fun r => r.passed)).length
  , failed := (results.filter (fun r => !r.passed && !r.skipped)).length
  , skipped := (results.filter (fun r => r.skipped)).length
  , results := results }

/-- A parsed top-level test definition as `executeTest` sees it.  The
`http`, `command` and `httpBodyComparison` payloads are kept as opaque
parsed values (their interiors are handled by oracles below); the `wait`
payload is structured.  `expect` is an opaque parsed value, `setVars` the
rule map. -/
structure TestConfigM where
  http : Option JVal := none
  command : Option JVal := none
  wait : Option WaitConfig := none
  httpBodyComparison : Option JVal := none
  expect : Option JVal := none
  setVars : Option (List (String × SetVarRule)) := none

/-- `executeTest`'s dispatch: the chain
`if (testConfig.http) ... if (testConfig.command) ... if (testConfig.wait)
... if (testConfig.httpBodyComparison) ...` selects the first truthy kind
key, and throws only when none is truthy. -/
def dispatchTestKind (tc : TestConfigM) : Except String TestKind :=
  if jvalTruthyOpt tc.http then .ok .http
  else if jvalTruthyOpt tc.command then .ok .command
  else if tc.wait.isSome then .ok .wait
  else if jvalTruthyOpt tc.httpBodyComparison then .ok .httpBodyComparison
  else .error "Unknown test type: test definition must contain one of: http, command, wait, httpBodyComparison"

/-- The HTTP response shape every HTTP strategy returns. -/
structure ResponseData where
  statusCode : Int
  headers : List (String × String) := []
  body : JVal := .undefined

/-- The captured result of a command execution. -/
structure CommandResult where
  stdout : String := ""
  stderr : String := ""
  exitCode : Int := 0
  json : JVal := .undefined

/-- `ResultData` view of an HTTP response for `applySetVars`. -/
def dataOfResponse (r : ResponseData) : ResultData :=
  { body := r.body, headers := r.headers, statusCode := some r.statusCode }

/-- `ResultData` view of a command result for `applySetVars`. -/
def dataOfCommand (r : CommandResult) : ResultData :=
  { stdout := some r.stdout, stderr := some r.stderr,
    exitCode := some r.exitCode, json := r.json }

/-- `executeHttpTest(test)`: the validation prefix (an HTTP block must be
present; `setVars` requires `expect`), then the externally-performed
request (`doRequest` folds URL interpolation, strategy selection and the
transport), expectation validation (`validateHttp`, an oracle over the
opaque `expect` payload) and finally `setVars` extraction. -/
def executeHttpTestModel (doRequest : Except String ResponseData)
    (validateHttp : ResponseData → Option JVal → Except String Unit)
    (jsonPathEval : String → JVal → List JVal)
    (regexExec : String → String → Option (List (Option String)))
    (jsonParse : String → Except String JVal)
    (tc : TestConfigM) (env : EnvStore) : Except String EnvStore :=
  if ¬ jvalTruthyOpt tc.http then .error "HTTP configuration missing for HTTP test"
  else if tc.setVars.isSome ∧ ¬ jvalTruthyOpt tc.expect then
    .error "setVars requires \"expect\" to be defined on the test"
  else do
    let response ← doRequest
    let _ ← validateHttp response tc.expect
    match tc.setVars with
    | some sv => applySetVars jsonPathEval regexExec jsonParse sv (dataOfResponse response) "http" env
    | none => .ok env

/-- Shape checks `executeCommandTest` performs on the parsed `command`
payload before running: it must be an object with a truthy string-typed
`command` property.  (The `typeof test.command === 'string'` rejection and
the missing-property rejection.) -/
def commandShapeCheck (cmd : JVal) : Except String Unit :=
  match cmd with
  | .str _ => .error "Command must be an object with a \"command\" property. Use: \x7b command: \"your command here\" \x7d"
  | .obj fields =>
    if jvalTruthy (jGet fields "command") then .ok ()
    else .error "Command object must have a \"command\" property with the command string"
  | _ =>
    if jvalTruthy (jGet [] "command") then .ok ()
    else .error "Command object must have a \"command\" property with the command string"

/-- `executeCommandTest(test)`: the validation prefix (a command block
must be present; `setVars` requires `expect`; the payload shape checks),
the externally-run command, expectation validation only when `expect` is
present, then `setVars` extraction. -/
def executeCommandTestModel (runCommand : Except String CommandResult)
    (validateCommand : CommandResult → JVal → Except String Unit)
    (jsonPathEval : String → JVal → List JVal)
    (regexExec : String → String → Option (List (Option String)))
    (jsonParse : String → Except String JVal)
    (tc : TestConfigM) (env : EnvStore) : Except String EnvStore :=
  if ¬ jvalTruthyOpt tc.command then .error "Command configuration missing for command test"
  else if tc.setVars.isSome ∧ ¬ jvalTruthyOpt tc.expect then
    .error "setVars requires \"expect\" to be defined on the test"
  else do
    let _ ← commandShapeCheck (tc.command.getD .undefined)
    let result ← runCommand
    let _ ← (if jvalTruthyOpt tc.expect then validateCommand result (tc.expect.getD .undefined)
             else .ok ())
    match tc.setVars with
    | some sv => applySetVars jsonPathEval regexExec jsonParse sv (dataOfCommand result) "command" env
    | none => .ok env

/-- `executeTest(yamlDefinition)` after parsing: dispatch on the first
truthy kind key and run the matching executor.  The wait branch passes
`testConfig.setVars` straight to `executeKubectlWait` with no
`setVars`-requires-`expect` check; the body-comparison branch (modelled by
the `doBodyComparison` oracle) ignores `setVars` entirely.  The result is
the updated variable store (success), a thrown message, or `none` when the
poller's fuel runs out. -/
def executeTestModel (doRequest : Except String ResponseData)
    (validateHttp : ResponseData → Option JVal → Except String Unit)
    (runCommand : Except String CommandResult)
    (validateCommand : CommandResult → JVal → Except String Unit)
    (doBodyComparison : JVal → Except String Unit)
    (jsonPathEval : String → JVal → List JVal)
    (regexExec : String → String → Option (List (Option String)))
    (jsonParse : String → Except String JVal)
    (regexTest : String → String → Bool) (toNumber : JVal → Option Int)
    (fetch : Nat → Option JVal)
    (tc : TestConfigM) (env : EnvStore) (fuel : Nat) :
    Option (Except String EnvStore) :=
  if jvalTruthyOpt tc.http then
    some (executeHttpTestModel doRequest validateHttp jsonPathEval regexExec jsonParse tc env)
  else if jvalTruthyOpt tc.command then
    some (executeCommandTestModel runCommand validateCommand jsonPathEval regexExec jsonParse tc env)
  else if tc.wait.isSome then
    executeKubectlWaitModel jsonPathEval regexExec jsonParse regexTest toNumber fetch
      (tc.wait.getD {}) tc.setVars env fuel
  else if jvalTruthyOpt tc.httpBodyComparison then
    some ((doBodyComparison (tc.httpBodyComparison.getD .undefined)).map (fun _ => env))
  else
    some (.error "Unknown test type: test definition must contain one of: http, command, wait, httpBodyComparison")

/-- Helper: `compareValue` in terms of the raw comparator boolean. -/
theorem compareValue_of_raw {regexTest : String → String → Bool} {toNumber : JVal → Option Int}
    {actual : JVal} {c : Comparison} {d : String} {raw : Bool}
    (h : rawCompare regexTest toNumber actual c = some raw) :
    compareValue regexTest toNumber actual c d =
      (if (if c.negate then !raw else raw) then .ok () else .error (compareFailMessage actual c d)) := by
  unfold compareValue
  rw [h]

/-- C2 (counterexample): a test definition carrying both an `http` and a
`command` block is dispatched to the HTTP executor — no ambiguity error is
raised when more than one kind key is present. -/
theorem C2_ambiguous_kind_counterexample :
    dispatchTestKind { http := some (.obj []), command := some (.obj []) } = .ok .http := by
  rfl

/-- C2 (amended): the dispatcher raises the fatal unknown-test-type error
exactly when none of the four kind keys is truthy; when one or more are
present it silently dispatches to the first in the fixed priority order
`http`, `command`, `wait`, `httpBodyComparison`. -/
theorem C2_dispatch_priority (tc : TestConfigM) :
    ((dispatchTestKind tc).isOk = false ↔
      jvalTruthyOpt tc.http = false ∧ jvalTruthyOpt tc.command = false ∧
      tc.wait.isSome = false ∧ jvalTruthyOpt tc.httpBodyComparison = false) ∧
    (jvalTruthyOpt tc.http = true → dispatchTestKind tc = .ok .http) ∧
    (jvalTruthyOpt tc.http = false → jvalTruthyOpt tc.command = true →
      dispatchTestKind tc = .ok .command) ∧
    (jvalTruthyOpt tc.http = false → jvalTruthyOpt tc.command = false →
      tc.wait.isSome = true → dispatchTestKind tc = .ok .wait) ∧
    (jvalTruthyOpt tc.http = false → jvalTruthyOpt tc.command = false →
      tc.wait.isSome = false → jvalTruthyOpt tc.httpBodyComparison = true →
      dispatchTestKind tc = .ok .httpBodyComparison) ∧
    (jvalTruthyOpt tc.http = false → jvalTruthyOpt tc.command = false →
      tc.wait.isSome = false → jvalTruthyOpt tc.httpBodyComparison = false →
      dispatchTestKind tc =
        .error "Unknown test type: test definition must contain one of: http, command, wait, httpBodyComparison") := by
  unfold dispatchTestKind
  by_cases h1 : jvalTruthyOpt tc.http <;>
    by_cases h2 : jvalTruthyOpt tc.command <;>
      by_cases h3 : tc.wait.isSome <;>
        by_cases h4 : jvalTruthyOpt tc.httpBodyComparison <;>
          simp [h1, h2, h3, h4, Except.isOk, Except.toBool]

/-- Witness for C2: a definition with only a `command` block dispatches to
the command executor, and one with no kind key at all errors. -/
theorem C2_dispatch_priority_witness :
    dispatchTestKind { command := some (.obj [("command", .str "echo hi")]) } = .ok .command ∧
    dispatchTestKind {} =
      .error "Unknown test type: test definition must contain one of: http, command, wait, httpBodyComparison" := by
  refine ⟨(C2_dispatch_priority _).2.2.1 rfl rfl, ?_⟩
  exact (C2_dispatch_priority {}).2.2.2.2.2 rfl rfl rfl rfl

/-- C3: for every supported comparator and every negation flag, the
comparator engine raises iff the final boolean `negate ? !raw : raw` is
false, and the failure message names the comparator (with a `not ` prefix
under negation), the expected value (omitted for `exists`), and the
observed value — `compareFailMessage` spells the exact text. -/
theorem C3_compare_raises_iff_final_false
    (regexTest : String → String → Bool) (toNumber : JVal → Option Int)
    (actual : JVal) (c : Comparison) (d : String)
    (h : c.comparator ∈ (["exists", "equals", "contains", "matches", "greaterThan", "lessThan"] : List String)) :
    ∃ raw, rawCompare regexTest toNumber actual c = some raw ∧
      ((compareValue regexTest toNumber actual c d = .ok ()) ↔ (if c.negate then !raw else raw) = true) ∧
      ((if c.negate then !raw else raw) = false →
        compareValue regexTest toNumber actual c d = .error (compareFailMessage actual c d)) := by
  have hcases : c.comparator = "exists" ∨ c.comparator = "equals" ∨ c.comparator = "contains" ∨
      c.comparator = "matches" ∨ c.comparator = "greaterThan" ∨ c.comparator = "lessThan" := by
    simpa using h
  have hsome : ∃ raw, rawCompare regexTest toNumber actual c = some raw := by
    rcases hcases with h | h | h | h | h | h <;> (unfold rawCompare; rw [h]) <;> simp
  obtain ⟨raw, hraw⟩ := hsome
  refine ⟨raw, hraw, ?_, ?_⟩
  · rw [compareValue_of_raw hraw]
    cases hfin : (if c.negate then !raw else raw) <;> simp [hfin]
  · intro hfalse
    rw [compareValue_of_raw hraw, hfalse]
    simp

/-- Witness for C3 at the spec's own example: `lessThan 10` on `5` passes,
`lessThan 3` on `10` raises with the documented message. -/
theorem C3_compare_raises_iff_final_false_witness :
    compareValue (fun _ _ => false) (fun v => match v with | .num n => some n | _ => none)
        (.num 5) { comparator := "lessThan", value := .num 10 } "Value" = .ok () ∧
    compareValue (fun _ _ => false) (fun v => match v with | .num n => some n | _ => none)
        (.num 10) { comparator := "lessThan", value := .num 3 } "Value" =
      .error "Value comparison failed: expected to lessThan 3, found 10" := by
  constructor
  · obtain ⟨raw, hraw, hiff, _⟩ := C3_compare_raises_iff_final_false
      (fun _ _ => false) (fun v => match v with | .num n => some n | _ => none)
      (.num 5) { comparator := "lessThan", value := .num 10 } "Value" (by decide)
    have hr : raw = true := by
      have : rawCompare (fun _ _ => false) (fun v => match v with | .num n => some n | _ => none)
          (.num 5) { comparator := "lessThan", value := .num 10 } = some true := by decide
      rw [this] at hraw
      exact (Option.some.inj hraw).symm
    exact hiff.mpr (by simp [hr])
  · obtain ⟨raw, hraw, _, herr⟩ := C3_compare_raises_iff_final_false
      (fun _ _ => false) (fun v => match v with | .num n => some n | _ => none)
      (.num 10) { comparator := "lessThan", value := .num 3 } "Value" (by decide)
    have hr : raw = false := by
      have : rawCompare (fun _ _ => false) (fun v => match v with | .num n => some n | _ => none)
          (.num 10) { comparator := "lessThan", value := .num 3 } = some false := by decide
      rw [this] at hraw
      exact (Option.some.inj hraw).symm
    have := herr (by simp [hr])
    simpa [compareFailMessage, actualAsString, jsonStringify] using this

/-- C4 (counterexample): with comparator `contains` and `matchword: true`,
the comparator engine still passes on a plain substring hit even under a
regex engine for which the word-bounded pattern `\bfoo\b` does not match
`foobar` (as the real `RegExp` does not) — `matchword` is ignored by
`compareValue`. -/
theorem C4_matchword_counterexample :
    compareValue (fun _ _ => false) (fun _ => none) (.str "foobar")
        { comparator := "contains", value := .str "foo", matchword := true } "Value" = .ok () ∧
    (fun _ _ => false : String → String → Bool) "\\bfoo\\b" "foobar" = false := by
  exact ⟨rfl, rfl⟩

/-- C4 (amended): the word-boundary behaviour lives in the HTTP
`bodyContains` expectation check, not in the comparator engine: for a
`bodyContains` item with `matchword: true` the check succeeds exactly when
the word-bounded regex `\bneedle\b` matches (inverted by `negate`), while
`compareValue`'s `contains` comparator ignores the `matchword` flag
entirely and always performs a plain substring test. -/
theorem C4_matchword_word_boundary :
    (∀ (regexTest : String → String → Bool) (envLookup : String → Option String)
        (rawBody : String) (item : BodyContainsItem),
      item.matchword = true → jsStartsWith item.value "$" = false →
      (validateBodyContains regexTest envLookup rawBody item = .ok () ↔
        (if item.negate then regexTest ("\\b" ++ item.value ++ "\\b") rawBody = false
         else regexTest ("\\b" ++ item.value ++ "\\b") rawBody = true))) ∧
    (∀ (regexTest : String → String → Bool) (toNumber : JVal → Option Int)
        (actual v : JVal) (neg mw : Bool) (d : String),
      compareValue regexTest toNumber actual
          { comparator := "contains", value := v, negate := neg, matchword := mw } d =
        compareValue regexTest toNumber actual
          { comparator := "contains", value := v, negate := neg, matchword := false } d) := by
  constructor
  · intro regexTest envLookup rawBody item hmw hdollar
    cases hneg : item.negate <;>
      cases hre : regexTest ("\\b" ++ item.value ++ "\\b") rawBody <;>
        simp [validateBodyContains, hmw, hdollar, hneg, hre]
  · intro regexTest toNumber actual v neg mw d
    simp [compareValue, rawCompare, compareFailMessage]

/-- Witness for C4's amended theorem: `ok` as a whole word is found in
`all ok here` by the word-boundary regex, so the check passes; and a
`matchword: true` contains comparison equals its `matchword: false`
counterpart on a concrete input. -/
theorem C4_matchword_word_boundary_witness :
    validateBodyContains (fun p b => p = "\\bok\\b" && b = "all ok here") (fun _ => none)
        "all ok here" { value := "ok", matchword := true } = .ok () ∧
    compareValue (fun _ _ => false) (fun _ => none) (.str "foobar")
        { comparator := "contains", value := .str "foo", negate := false, matchword := true } "V" =
      compareValue (fun _ _ => false) (fun _ => none) (.str "foobar")
        { comparator := "contains", value := .str "foo", negate := false, matchword := false } "V" := by
  constructor
  · exact ((C4_matchword_word_boundary.1 (fun p b => p = "\\bok\\b" && b = "all ok here")
      (fun _ => none) "all ok here" { value := "ok", matchword := true } rfl (by decide))).mpr (by decide)
  · exact C4_matchword_word_boundary.2 (fun _ _ => false) (fun _ => none) (.str "foobar")
      (.str "foo") false true "V"

/-- C6 (counterexample): with the empty header name, `{header: ""}` is a
falsy rule key in JS, so `applySetVars` against a command result raises
the generic unknown-extraction-rule error rather than the
invalid-source-for-kind error the claim promises for every header name. -/
theorem C6_empty_header_counterexample :
    applySetVars (fun _ _ => []) (fun _ _ => none) (fun _ => .error "") [("v", { header := some "" })]
        {} "command" [] =
      .error ("setVars \"v\": unknown extraction rule: " ++ ruleStringify { header := some "" }) ∧
    ("setVars \"v\": unknown extraction rule: " ++ ruleStringify { header := some "" }) ≠
      "setVars \"v\": \"header\" source is only valid for http tests" := by
  exact ⟨rfl, by decide⟩

/-- C6 (amended): for every non-empty header name, a `{header: name}`
rule applied to a command-kind result raises the fatal
invalid-source-for-kind error before publishing anything; and in general
every truthy extraction rule applied to a test kind it is not valid for
raises its fatal, named invalid-source error (the empty-name forms of the
string-valued rules fall to the unknown-rule error instead, and also never
publish). -/
theorem C6_invalid_source_for_kind :
    (∀ (name : String), name ≠ "" →
      ∀ (jpe : String → JVal → List JVal) (rxe : String → String → Option (List (Option String)))
        (jp : String → Except String JVal) (varName : String)
        (rest : List (String × SetVarRule)) (data : ResultData) (env : EnvStore),
      applySetVars jpe rxe jp ((varName, { header := some name }) :: rest) data "command" env =
        .error ("setVars \"" ++ varName ++ "\": \"header\" source is only valid for http tests")) ∧
    (∀ (name : String), name ≠ "" →
      ∀ (jpe : String → JVal → List JVal) (rxe : String → String → Option (List (Option String)))
        (jp : String → Except String JVal) (varName : String)
        (rest : List (String × SetVarRule)) (data : ResultData) (env : EnvStore) (t : String),
        t ≠ "http" → t ≠ "command" →
      applySetVars jpe rxe jp ((varName, { jsonPath := some name }) :: rest) data t env =
        .error ("setVars \"" ++ varName ++ "\": \"jsonPath\" source is not valid for " ++ t ++ " tests")) ∧
    (∀ (jpe : String → JVal → List JVal) (rxe : String → String → Option (List (Option String)))
        (jp : String → Except String JVal) (varName : String)
        (rest : List (String × SetVarRule)) (data : ResultData) (env : EnvStore) (t : String),
        t ≠ "http" →
      applySetVars jpe rxe jp ((varName, { statusCode := true }) :: rest) data t env =
        .error ("setVars \"" ++ varName ++ "\": \"statusCode\" source is only valid for http tests") ∧
      applySetVars jpe rxe jp ((varName, { body := true }) :: rest) data t env =
        .error ("setVars \"" ++ varName ++ "\": \"body\" source is only valid for http tests")) ∧
    (∀ (jpe : String → JVal → List JVal) (rxe : String → String → Option (List (Option String)))
        (jp : String → Except String JVal) (varName : String)
        (rest : List (String × SetVarRule)) (data : ResultData) (env : EnvStore) (t : String),
        t ≠ "command" →
      applySetVars jpe rxe jp ((varName, { stdout := true }) :: rest) data t env =
        .error ("setVars \"" ++ varName ++ "\": \"stdout\" source is only valid for command tests") ∧
      applySetVars jpe rxe jp ((varName, { stderr := true }) :: rest) data t env =
        .error ("setVars \"" ++ varName ++ "\": \"stderr\" source is only valid for command tests") ∧
      applySetVars jpe rxe jp ((varName, { exitCode := true }) :: rest) data t env =
        .error ("setVars \"" ++ varName ++ "\": \"exitCode\" source is only valid for command tests")) ∧
    (∀ (jpe : String → JVal → List JVal) (rxe : String → String → Option (List (Option String)))
        (jp : String → Except String JVal) (varName : String)
        (rest : List (String × SetVarRule)) (data : ResultData) (env : EnvStore) (t : String),
        t ≠ "wait" →
      applySetVars jpe rxe jp ((varName, { value := true }) :: rest) data t env =
        .error ("setVars \"" ++ varName ++ "\": \"value\" source is only valid for wait tests")) ∧
    (∀ (jpe : String → JVal → List JVal) (rxe : String → String → Option (List (Option String)))
        (jp : String → Except String JVal) (varName : String) (rr : RegexRule)
        (rest : List (String × SetVarRule)) (data : ResultData) (env : EnvStore),
      applySetVars jpe rxe jp ((varName, { regex := some rr }) :: rest) data "wait" env =
        .error ("setVars \"" ++ varName ++ "\": \"regex\" source is not valid for wait tests")) := by
  refine ⟨?_, ?_, ?_, ?_, ?_, ?_⟩
  · intro name hname jpe rxe jp varName rest data env
    simp [applySetVars, extractValue, strTruthy, hname]
  · intro name hname jpe rxe jp varName rest data env t h1 h2
    simp [applySetVars, extractValue, strTruthy, hname, h1, h2]
  · intro jpe rxe jp varName rest data env t h1
    constructor <;> simp [applySetVars, extractValue, strTruthy, h1]
  · intro jpe rxe jp varName rest data env t h1
    refine ⟨?_, ?_, ?_⟩ <;> simp [applySetVars, extractValue, strTruthy, h1]
  · intro jpe rxe jp varName rest data env t h1
    simp [applySetVars, extractValue, strTruthy, h1]
  · intro jpe rxe jp varName rr rest data env
    simp [applySetVars, extractValue, strTruthy]

/-- Witness for C6's amended theorem: `{header: "X-Server"}` against a
command result raises the invalid-source error. -/
theorem C6_invalid_source_for_kind_witness :
    applySetVars (fun _ _ => []) (fun _ _ => none) (fun _ => .error "") [("SV", { header := some "X-Server" })]
        {} "command" [] =
      .error "setVars \"SV\": \"header\" source is only valid for http tests" := by
  exact C6_invalid_source_for_kind.1 "X-Server" (by decide) (fun _ _ => [])
    (fun _ _ => none) (fun _ => .error "") "SV" [] {} []

/-- Helper: writing a variable then reading it back yields the written
value. -/
theorem lookupEnv_setEnv_self (env : EnvStore) (k v : String) :
    lookupEnv (setEnv env k v) k = some v := by
  induction env with
  | nil => simp [setEnv, lookupEnv]
  | cons p rest ih =>
    by_cases h : p.1 = k
    · simp [setEnv, lookupEnv, h]
    · simp only [setEnv]
      rw [if_neg h]
      simp only [lookupEnv, List.find?]
      have hbeq : (p.1 == k) = false := by simpa using h
      rw [hbeq]
      exact ih

/-- Helper: writing a variable leaves every other variable unchanged. -/
theorem lookupEnv_setEnv_other (env : EnvStore) (k v k' : String) (h : k' ≠ k) :
    lookupEnv (setEnv env k v) k' = lookupEnv env k' := by
  induction env with
  | nil =>
    simp only [setEnv, lookupEnv, List.find?]
    have : (k == k') = false := by simpa using fun he => h he.symm
    simp [this]
  | cons p rest ih =>
    by_cases hpk : p.1 = k
    · simp only [setEnv]
      rw [if_pos hpk]
      simp only [lookupEnv, List.find?]
      have h1 : (k == k') = false := by simpa using fun he => h he.symm
      have h2 : (p.1 == k') = false := by
        subst hpk
        exact h1
      rw [h1, h2]
    · simp only [setEnv]
      rw [if_neg hpk]
      simp only [lookupEnv, List.find?]
      cases hfind : (p.1 == k') with
      | true => rfl
      | false => exact ih

/-- C7: every value a `setVars` rule extracts is coerced to text
(non-strings JSON-serialized), trimmed of surrounding whitespace and
published under the rule's name — overwriting any prior binding, while
other names are untouched; concretely, capturing `jsonPath: "$.id"` from
the body `{"id":42}` publishes exactly the string `"42"`. -/
theorem C7_extract_coerce_trim_publish :
    (∀ (jpe : String → JVal → List JVal) (rxe : String → String → Option (List (Option String)))
        (jp : String → Except String JVal) (varName : String) (rule : SetVarRule)
        (data : ResultData) (t : String) (env env' : EnvStore) (v : JVal),
      extractValue jpe rxe jp varName rule data t = .ok v →
      applySetVars jpe rxe jp [(varName, rule)] data t env = .ok env' →
      env' = setEnv env varName (jsTrim (stringifyExtracted v)) ∧
      lookupEnv env' varName = some (jsTrim (stringifyExtracted v))) ∧
    (∀ (env : EnvStore) (k v : String), lookupEnv (setEnv env k v) k = some v) ∧
    (∀ (env : EnvStore) (k v k' : String), k' ≠ k →
      lookupEnv (setEnv env k v) k' = lookupEnv env k') ∧
    (applySetVars simpleJsonPath (fun _ _ => none) (fun _ => .error "") [("id", { jsonPath := some "$.id" })]
        { body := .obj [("id", .num 42)] } "http" [] = .ok [("id", "42")] ∧
     lookupEnv [("id", "42")] "id" = some "42") := by
  refine ⟨?_, lookupEnv_setEnv_self, lookupEnv_setEnv_other, rfl, rfl⟩
  intro jpe rxe jp varName rule data t env env' v hex happ
  rw [show applySetVars jpe rxe jp [(varName, rule)] data t env =
        (match extractValue jpe rxe jp varName rule data t with
         | .error e => .error e
         | .ok value =>
           match value with
           | .undefined => .error ("setVars \"" ++ varName ++ "\": extracted value is null or undefined")
           | .null => .error ("setVars \"" ++ varName ++ "\": extracted value is null or undefined")
           | v => applySetVars jpe rxe jp [] data t (setEnv env varName (jsTrim (stringifyExtracted v))))
      from rfl, hex] at happ
  cases v with
  | undefined => simp at happ
  | null => simp at happ
  | bool b =>
    simp only [applySetVars, Except.ok.injEq] at happ
    subst happ
    exact ⟨rfl, lookupEnv_setEnv_self env varName _⟩
  | num n =>
    simp only [applySetVars, Except.ok.injEq] at happ
    subst happ
    exact ⟨rfl, lookupEnv_setEnv_self env varName _⟩
  | str s =>
    simp only [applySetVars, Except.ok.injEq] at happ
    subst happ
    exact ⟨rfl, lookupEnv_setEnv_self env varName _⟩
  | arr xs =>
    simp only [applySetVars, Except.ok.injEq] at happ
    subst happ
    exact ⟨rfl, lookupEnv_setEnv_self env varName _⟩
  | obj fs =>
    simp only [applySetVars, Except.ok.injEq] at happ
    subst happ
    exact ⟨rfl, lookupEnv_setEnv_self env varName _⟩

/-- Witness for C7: the `$.id` capture from `{"id":42}` goes through the
general coerce-trim-publish path and reads back as the string `"42"`. -/
theorem C7_extract_coerce_trim_publish_witness :
    [("id", "42")] = setEnv [] "id" (jsTrim (stringifyExtracted (.num 42))) ∧
    lookupEnv [("id", "42")] "id" = some (jsTrim (stringifyExtracted (.num 42))) := by
  exact C7_extract_coerce_trim_publish.1 simpleJsonPath (fun _ _ => none) (fun _ => .error "")
    "id" { jsonPath := some "$.id" } { body := .obj [("id", .num 42)] } "http" [] [("id", "42")]
    (.num 42) rfl rfl

/-- C9 (counterexample): a wait-kind definition carrying `setVars` but no
`expect` block is not rejected — the dispatcher hands `setVars` straight
to the poller, the condition is satisfied on the first fetch, and the
extraction publishes `phase=Running` with no error ever raised. -/
theorem C9_wait_setVars_without_expect_counterexample :
    (({ wait := some { target := some { kind := "Pod", nsName := some "ns", name := some "x" },
                       jsonPath := some "$.status.phase" },
        setVars := some [("phase", { value := true })] } : TestConfigM).setVars.isSome = true) ∧
    (({ wait := some { target := some { kind := "Pod", nsName := some "ns", name := some "x" },
                       jsonPath := some "$.status.phase" },
        setVars := some [("phase", { value := true })] } : TestConfigM).expect = none) ∧
    executeTestModel (.error "unused") (fun _ _ => .ok ()) (.error "unused") (fun _ _ => .ok ())
        (fun _ => .ok ()) simpleJsonPath (fun _ _ => none) (fun _ => .error "")
        (fun _ _ => false) (fun _ => none)
        (fun _ => some (.obj [("status", .obj [("phase", .str "Running")])]))
        { wait := some { target := some { kind := "Pod", nsName := some "ns", name := some "x" },
                         jsonPath := some "$.status.phase" },
          setVars := some [("phase", { value := true })] }
        [] 5 =
      some (.ok [("phase", "Running")]) := by
  exact ⟨rfl, rfl, rfl⟩

/-- C9 (amended): for the `http` and `command` kinds the invariant holds —
a definition carrying `setVars` without a truthy `expect` is rejected with
the fatal `setVars requires "expect"` error before any request, command or
extraction runs; the wait kind has no such check (see the counterexample)
and the body-comparison kind ignores `setVars` entirely. -/
theorem C9_setVars_requires_expect_http_command :
    (∀ (doRequest : Except String ResponseData)
        (validateHttp : ResponseData → Option JVal → Except String Unit)
        (runCommand : Except String CommandResult)
        (validateCommand : CommandResult → JVal → Except String Unit)
        (doBodyComparison : JVal → Except String Unit)
        (jpe : String → JVal → List JVal) (rxe : String → String → Option (List (Option String)))
        (jp : String → Except String JVal) (regexTest : String → String → Bool)
        (toNumber : JVal → Option Int) (fetch : Nat → Option JVal)
        (tc : TestConfigM) (env : EnvStore) (fuel : Nat),
      jvalTruthyOpt tc.http = true → tc.setVars.isSome = true → jvalTruthyOpt tc.expect = false →
      executeTestModel doRequest validateHttp runCommand validateCommand doBodyComparison
          jpe rxe jp regexTest toNumber fetch tc env fuel =
        some (.error "setVars requires \"expect\" to be defined on the test")) ∧
    (∀ (doRequest : Except String ResponseData)
        (validateHttp : ResponseData → Option JVal → Except String Unit)
        (runCommand : Except String CommandResult)
        (validateCommand : CommandResult → JVal → Except String Unit)
        (doBodyComparison : JVal → Except String Unit)
        (jpe : String → JVal → List JVal) (rxe : String → String → Option (List (Option String)))
        (jp : String → Except String JVal) (regexTest : String → String → Bool)
        (toNumber : JVal → Option Int) (fetch : Nat → Option JVal)
        (tc : TestConfigM) (env : EnvStore) (fuel : Nat),
      jvalTruthyOpt tc.http = false → jvalTruthyOpt tc.command = true →
      tc.setVars.isSome = true → jvalTruthyOpt tc.expect = false →
      executeTestModel doRequest validateHttp runCommand validateCommand doBodyComparison
          jpe rxe jp regexTest toNumber fetch tc env fuel =
        some (.error "setVars requires \"expect\" to be defined on the test")) := by
  constructor
  · intro doRequest validateHttp runCommand validateCommand doBodyComparison
      jpe rxe jp regexTest toNumber fetch tc env fuel h1 h2 h3
    simp [executeTestModel, executeHttpTestModel, h1, h2, h3]
  · intro doRequest validateHttp runCommand validateCommand doBodyComparison
      jpe rxe jp regexTest toNumber fetch tc env fuel h1 h2 h3 h4
    simp [executeTestModel, executeCommandTestModel, h1, h2, h3, h4]

/-- Witness for C9's amended theorem: a concrete http definition with
`setVars` and no `expect` is rejected with the named fatal error. -/
theorem C9_setVars_requires_expect_witness :
    executeTestModel (.error "unused") (fun _ _ => .ok ()) (.error "unused") (fun _ _ => .ok ())
        (fun _ => .ok ()) simpleJsonPath (fun _ _ => none) (fun _ => .error "")
        (fun _ _ => false) (fun _ => none) (fun _ => none)
        { http := some (.obj [("url", .str "http://x")]),
          setVars := some [("b", { body := true })] }
        [] 5 =
      some (.error "setVars requires \"expect\" to be defined on the test") := by
  exact C9_setVars_requires_expect_http_command.1 (.error "unused") (fun _ _ => .ok ())
    (.error "unused") (fun _ _ => .ok ()) (fun _ => .ok ()) simpleJsonPath (fun _ _ => none)
    (fun _ => .error "") (fun _ _ => false) (fun _ => none) (fun _ => none)
    { http := some (.obj [("url", .str "http://x")]), setVars := some [("b", { body := true })] }
    [] 5 rfl rfl rfl

/-- Helper: with a never-satisfied body, the polling loop reaches the
deadline and raises the timeout error, provided no retry ceiling fires
first (`maxRetries` absent, or a ceiling the deadline beats) and the fuel
covers the iterations.  Time is tracked as `rc * I`: the clock after `rc`
retries of interval `I`. -/
theorem waitLoop_timeout (body : Nat → WaitStep) (T I : Nat) (mR : Option Nat)
    (msgT : String) (msgR : Nat → String)
    (hbody : ∀ i, body i = .retry) (hI : 1 ≤ I)
    (hmr : mR = none ∨ ∃ m, mR = some m ∧ T ≤ m * I) :
    ∀ (f rc : Nat), T ≤ rc * I + f * I →
      waitLoop body T I mR msgT msgR (f + 1) (rc * I) rc = some (.error msgT) := by
  intro f
  induction f with
  | zero =>
    intro rc hT
    simp only [Nat.zero_mul, Nat.add_zero] at hT
    simp only [waitLoop]
    rw [if_neg (by omega)]
  | succ f ih =>
    intro rc hT
    by_cases hlt : rc * I < T
    · have hrec : waitLoop body T I mR msgT msgR (f + 1 + 1) (rc * I) rc =
          waitLoop body T I mR msgT msgR (f + 1) (rc * I + I) (rc + 1) := by
        rcases hmr with hnone | ⟨m, hm, hTm⟩
        · simp only [waitLoop, hnone, hbody rc]
          rw [if_pos hlt]
        · have hrcm : rc < m := by
            have hmul : rc * I < m * I := Nat.lt_of_lt_of_le hlt hTm
            exact Nat.lt_of_mul_lt_mul_right hmul
          simp only [waitLoop, hm, hbody rc]
          rw [if_pos hlt, if_neg (by omega)]
      rw [hrec]
      have heq : rc * I + I = (rc + 1) * I := by ring
      rw [heq]
      apply ih
      have harith : (rc + 1) * I + f * I = rc * I + (f + 1) * I := by ring
      rw [harith]
      exact hT
    · simp only [waitLoop]
      rw [if_neg hlt]

/-- Helper: with a never-satisfied body and a retry ceiling the deadline
does not beat, the polling loop raises the retries-exhausted error once
the counter reaches the ceiling. -/
theorem waitLoop_retries (body : Nat → WaitStep) (T I m : Nat)
    (msgT : String) (msgR : Nat → String)
    (hbody : ∀ i, body i = .retry) (hI : 1 ≤ I) (hTm : m * I < T) :
    ∀ (f rc : Nat), rc ≤ m → m - rc + 1 ≤ f →
      waitLoop body T I (some m) msgT msgR f (rc * I) rc = some (.error (msgR m)) := by
  intro f
  induction f with
  | zero =>
    intro rc h1 h2
    omega
  | succ f ih =>
    intro rc hrc hf
    have hlt : rc * I < T := by
      have hmul : rc * I ≤ m * I := Nat.mul_le_mul_right I hrc
      omega
    by_cases hge : m ≤ rc
    · have hrm : rc = m := by omega
      subst hrm
      simp only [waitLoop]
      rw [if_pos hlt, if_pos (le_refl _)]
    · simp only [waitLoop, hbody rc]
      rw [if_pos hlt, if_neg hge]
      have heq : rc * I + I = (rc + 1) * I := by ring
      rw [heq]
      exact ih (rc + 1) (by omega) (by omega)

/-- Helper: the `value`-requires-`jsonPath` scan finds nothing when the
wait's `jsonPath` is truthy. -/
theorem find?_badValueRule_none (sv : List (String × SetVarRule)) (jp : Option String)
    (h : strTruthy jp = true) :
    sv.find? (fun p => p.2.value && !(strTruthy jp)) = none := by
  simp [List.find?_eq_none, h]

/-- C8: for a wait test whose condition never becomes true (every poll
iteration retries): when no retry ceiling fires first — `maxRetries`
absent, or a ceiling of at least `timeout/interval` iterations — the
poller raises the timeout error naming the resource, the JSONPath and the
expectation; when `maxRetries` is configured and reached before the
deadline, it instead raises the retries-exhausted error. -/
theorem C8_wait_timeout_vs_retries_exhausted
    (jpe : String → JVal → List JVal) (rxe : String → String → Option (List (Option String)))
    (jp : String → Except String JVal) (regexTest : String → String → Bool)
    (toNumber : JVal → Option Int) (fetch : Nat → Option JVal)
    (config : WaitConfig) (setVars : Option (List (String × SetVarRule))) (env : EnvStore)
    (sel : SelectorM)
    (htarget : config.target = some sel) (hsel : selectorValid sel = true)
    (hjp : strTruthy config.jsonPath = true)
    (hbody : ∀ i, waitBody jpe rxe jp regexTest toNumber config.jsonPath
        config.jsonPathExpectation setVars env (fetch i) = .retry)
    (hI : 1 ≤ waitIntervalOf config) :
    ((waitMaxRetriesOf config = none ∨
        (∃ m, waitMaxRetriesOf config = some m ∧
          waitTimeoutOf config * 1000 ≤ m * (waitIntervalOf config * 1000))) →
      ∀ fuel, waitTimeoutOf config * 1000 / (waitIntervalOf config * 1000) + 2 ≤ fuel →
      executeKubectlWaitModel jpe rxe jp regexTest toNumber fetch config setVars env fuel =
        some (.error (waitTimeoutMessage (waitTimeoutOf config) (getResourceDescription sel)
          config.jsonPath config.jsonPathExpectation))) ∧
    (∀ m, waitMaxRetriesOf config = some m →
      m * (waitIntervalOf config * 1000) < waitTimeoutOf config * 1000 →
      ∀ fuel, m + 1 ≤ fuel →
      executeKubectlWaitModel jpe rxe jp regexTest toNumber fetch config setVars env fuel =
        some (.error (waitRetriesMessage m (getResourceDescription sel)))) ∧
    (∀ e, config.jsonPathExpectation = some e →
      waitTimeoutMessage (waitTimeoutOf config) (getResourceDescription sel)
          config.jsonPath config.jsonPathExpectation =
        "Timed-out (" ++ toString (waitTimeoutOf config) ++ "s) waiting for " ++
          (getResourceDescription sel ++ (" → " ++ (config.jsonPath.getD "" ++ (" to " ++
          ((if e.negate then "not " ++ e.comparator else e.comparator) ++
            (if e.comparator = "exists" then "" else " " ++ jsonStringify e.value))))))) := by
  have hbad : badValueRuleOf setVars config.jsonPath = none := by
    cases setVars with
    | none => rfl
    | some sv => exact find?_badValueRule_none sv config.jsonPath hjp
  have hmodel : ∀ fuel, executeKubectlWaitModel jpe rxe jp regexTest toNumber fetch config setVars env fuel =
      waitLoop
        (fun i => waitBody jpe rxe jp regexTest toNumber
          config.jsonPath config.jsonPathExpectation setVars env (fetch i))
        (waitTimeoutOf config * 1000) (waitIntervalOf config * 1000) (waitMaxRetriesOf config)
        (waitTimeoutMessage (waitTimeoutOf config) (getResourceDescription sel)
          config.jsonPath config.jsonPathExpectation)
        (fun m => waitRetriesMessage m (getResourceDescription sel))
        fuel 0 0 := by
    intro fuel
    unfold executeKubectlWaitModel
    rw [htarget]
    simp only [hbad, hsel]
    simp
  refine ⟨?_, ?_, ?_⟩
  · intro hmr fuel hfuel
    have hpos : 0 < fuel :=
      lt_of_lt_of_le (by norm_num) (le_trans (Nat.le_add_left 2 _) hfuel)
    obtain ⟨f, rfl⟩ : ∃ f, fuel = f + 1 := ⟨fuel - 1, (Nat.succ_pred_eq_of_pos hpos).symm⟩
    rw [hmodel]
    have hIpos : 0 < waitIntervalOf config * 1000 := by
      have h0 : 0 < waitIntervalOf config := hI
      positivity
    have harith : waitTimeoutOf config * 1000 ≤
        0 * (waitIntervalOf config * 1000) + f * (waitIntervalOf config * 1000) := by
      set T := waitTimeoutOf config * 1000 with hT
      set I := waitIntervalOf config * 1000 with hI2
      have hdiv : T < (T / I + 1) * I := by
        have h1 := Nat.div_add_mod T I
        have h2 := Nat.mod_lt T hIpos
        nlinarith [Nat.div_mul_le_self T I]
      have hf1 : T / I + 1 ≤ f := by
        have h := hfuel
        rw [show T / I + 2 = (T / I + 1) + 1 from rfl] at h
        exact (add_le_add_iff_right 1).mp h
      have hmul : (T / I + 1) * I ≤ f * I := Nat.mul_le_mul_right I hf1
      have hle : T ≤ f * I := le_of_lt (lt_of_lt_of_le hdiv hmul)
      simpa using hle
    have hres := waitLoop_timeout
      (fun i => waitBody jpe rxe jp regexTest toNumber
        config.jsonPath config.jsonPathExpectation setVars env (fetch i))
      (waitTimeoutOf config * 1000) (waitIntervalOf config * 1000) (waitMaxRetriesOf config)
      (waitTimeoutMessage (waitTimeoutOf config) (getResourceDescription sel)
        config.jsonPath config.jsonPathExpectation)
      (fun m => waitRetriesMessage m (getResourceDescription sel))
      hbody (le_trans hI (Nat.le_mul_of_pos_right _ (by norm_num))) hmr f 0 harith
    simpa using hres
  · intro m hm hTm fuel hfuel
    rw [hmodel, hm]
    have hres := waitLoop_retries
      (fun i => waitBody jpe rxe jp regexTest toNumber
        config.jsonPath config.jsonPathExpectation setVars env (fetch i))
      (waitTimeoutOf config * 1000) (waitIntervalOf config * 1000) m
      (waitTimeoutMessage (waitTimeoutOf config) (getResourceDescription sel)
        config.jsonPath config.jsonPathExpectation)
      (fun m => waitRetriesMessage m (getResourceDescription sel))
      hbody (le_trans hI (Nat.le_mul_of_pos_right _ (by norm_num))) hTm fuel 0 (Nat.zero_le m)
      (by simpa using hfuel)
    simpa using hres
  · intro e he
    unfold waitTimeoutMessage
    rw [hjp, he]
    simp [String.append_assoc]

/-- Witness for C8 at the spec's two scenarios: with
`timeoutSeconds=4, intervalSeconds=1` a never-true condition times out
with the message naming the resource, the path and the expectation; with
`timeoutSeconds=60, maxRetries=2` it exhausts retries before the
deadline. -/
theorem C8_wait_timeout_vs_retries_exhausted_witness :
    executeKubectlWaitModel simpleJsonPath (fun _ _ => none) (fun _ => .error "")
        (fun _ _ => false) (fun _ => none) (fun _ => none)
        { target := some { kind := "Pod", nsName := some "ns", name := some "x" },
          jsonPath := some "$.status.phase",
          jsonPathExpectation := some { comparator := "equals", value := .str "Running" },
          polling := some { timeoutSeconds := some 4, intervalSeconds := some 1 } }
        none [] 10 =
      some (.error "Timed-out (4s) waiting for Pod/ns/x → $.status.phase to equals \"Running\"") ∧
    executeKubectlWaitModel simpleJsonPath (fun _ _ => none) (fun _ => .error "")
        (fun _ _ => false) (fun _ => none) (fun _ => none)
        { target := some { kind := "Pod", nsName := some "ns", name := some "x" },
          jsonPath := some "$.status.phase",
          jsonPathExpectation := some { comparator := "equals", value := .str "Running" },
          polling := some { timeoutSeconds := some 60, maxRetries := some 2 } }
        none [] 10 =
      some (.error "Maximum retries (2) exceeded while waiting for Pod/ns/x") := by
  constructor
  · have h1 := (C8_wait_timeout_vs_retries_exhausted simpleJsonPath (fun _ _ => none)
      (fun _ => .error "") (fun _ _ => false) (fun _ => none) (fun _ => none)
      { target := some { kind := "Pod", nsName := some "ns", name := some "x" },
        jsonPath := some "$.status.phase",
        jsonPathExpectation := some { comparator := "equals", value := .str "Running" },
        polling := some { timeoutSeconds := some 4, intervalSeconds := some 1 } }
      none [] { kind := "Pod", nsName := some "ns", name := some "x" }
      rfl rfl rfl (fun i => rfl) (by decide)).1 (Or.inl rfl) 10 (by decide)
    exact h1.trans (by rfl)
  · have h2 := (C8_wait_timeout_vs_retries_exhausted simpleJsonPath (fun _ _ => none)
      (fun _ => .error "") (fun _ _ => false) (fun _ => none) (fun _ => none)
      { target := some { kind := "Pod", nsName := some "ns", name := some "x" },
        jsonPath := some "$.status.phase",
        jsonPathExpectation := some { comparator := "equals", value := .str "Running" },
        polling := some { timeoutSeconds := some 60, maxRetries := some 2 } }
      none [] { kind := "Pod", nsName := some "ns", name := some "x" }
      rfl rfl rfl (fun i => rfl) (by decide)).2.1 2 rfl (by decide) 10 (by decide)
    exact h2.trans (by rfl)

/-- Helper: `runSingleTest` never marks an outcome skipped. -/
theorem runSingleTest_skipped_false (d : TestDefM) (i : Nat) (ex : Nat → Option String) :
    (runSingleTest d i ex).skipped = false := by
  unfold runSingleTest
  rcases h : firstSuccess ex (allowedAttempts d) with _ | a <;> simp [h]

/-- Helper: `runSingleTest` names the outcome after the definition. -/
theorem runSingleTest_name (d : TestDefM) (i : Nat) (ex : Nat → Option String) :
    (runSingleTest d i ex).name = testNameOf d i := by
  unfold runSingleTest
  rcases h : firstSuccess ex (allowedAttempts d) with _ | a <;> simp [h]

/-- Helper: `passed` mirrors the existence of a successful attempt. -/
theorem runSingleTest_passed_eq (d : TestDefM) (i : Nat) (ex : Nat → Option String) :
    (runSingleTest d i ex).passed = (firstSuccess ex (allowedAttempts d)).isSome := by
  unfold runSingleTest
  rcases h : firstSuccess ex (allowedAttempts d) with _ | a <;> simp [h]

/-- Helper: the retry loop finds a successful attempt iff one exists
within the budget. -/
theorem firstSuccess_isSome_iff (ex : Nat → Option String) (n : Nat) :
    (firstSuccess ex n).isSome = true ↔ ∃ a, a < n ∧ ex a = none := by
  unfold firstSuccess
  rw [List.find?_isSome]
  constructor
  · rintro ⟨a, ha, hp⟩
    exact ⟨a, by simpa using ha, by simpa using hp⟩
  · rintro ⟨a, ha, hex⟩
    exact ⟨a, by simpa using ha, by simp [hex]⟩

/-- Helper: a single run passes exactly when some attempt within the
budget succeeds. -/
theorem runSingleTest_passed_iff (d : TestDefM) (i : Nat) (ex : Nat → Option String) :
    (runSingleTest d i ex).passed = true ↔
      ∃ a, a < allowedAttempts d ∧ ex a = none := by
  rw [runSingleTest_passed_eq, firstSuccess_isSome_iff]

/-- Helper: every skipped-tail outcome is the canonical skipped record. -/
theorem mem_skippedList (r : TestOutcome) :
    ∀ (ds : List TestDefM) (i : Nat), r ∈ skippedList ds i →
      r.skipped = true ∧ r.passed = false ∧ r.attempts = 0 := by
  intro ds
  induction ds with
  | nil => intro i h; simp [skippedList] at h
  | cons d rest ih =>
    intro i h
    simp only [skippedList, List.mem_cons] at h
    rcases h with h | h
    · subst h; exact ⟨rfl, rfl, rfl⟩
    · exact ih (i + 1) h

/-- Helper: the skipped tail has one outcome per remaining definition. -/
theorem skippedList_length : ∀ (ds : List TestDefM) (i : Nat),
    (skippedList ds i).length = ds.length := by
  intro ds
  induction ds with
  | nil => intro i; rfl
  | cons d rest ih => intro i; simp [skippedList, ih (i + 1)]

/-- Helper: positional form of the skipped tail. -/
theorem skippedList_get : ∀ (ds : List TestDefM) (i j : Nat)
    (h : j < (skippedList ds i).length) (h' : j < ds.length),
    (skippedList ds i).get ⟨j, h⟩ = skippedOutcome (ds.get ⟨j, h'⟩) (i + j) := by
  intro ds
  induction ds with
  | nil => intro i j h h'; simp at h'
  | cons d rest ih =>
    intro i j h h'
    cases j with
    | zero => rfl
    | succ j =>
      have hidx : i + (j + 1) = i + 1 + j := by omega
      simp only [skippedList, List.get_cons_succ]
      rw [ih (i + 1) j (by simpa [skippedList] using h) (by simpa using h'), hidx]

/-- Helper: the runner records one outcome per definition. -/
theorem runTestsGo_length (exec : Nat → Nat → Option String) :
    ∀ (defs : List TestDefM) (i : Nat), (runTestsGo exec defs i).length = defs.length := by
  intro defs
  induction defs with
  | nil => intro i; rfl
  | cons d rest ih =>
    intro i
    simp only [runTestsGo]
    by_cases h : (runSingleTest d i (exec i)).passed
    · rw [if_pos h]; simp [ih (i + 1)]
    · rw [if_neg h]; simp [skippedList_length]

/-- Helper: a skipped outcome recorded by the runner is never marked
passed. -/
theorem mem_runTestsGo_skipped (exec : Nat → Nat → Option String) (r : TestOutcome) :
    ∀ (defs : List TestDefM) (i : Nat), r ∈ runTestsGo exec defs i →
      r.skipped = true → r.passed = false := by
  intro defs
  induction defs with
  | nil => intro i h; simp [runTestsGo] at h
  | cons d rest ih =>
    intro i h hs
    simp only [runTestsGo] at h
    by_cases hp : (runSingleTest d i (exec i)).passed
    · rw [if_pos hp] at h
      rcases List.mem_cons.mp h with h | h
      · subst h
        rw [runSingleTest_skipped_false] at hs
        exact absurd hs (by simp)
      · exact ih (i + 1) h hs
    · rw [if_neg hp] at h
      rcases List.mem_cons.mp h with h | h
      · subst h
        rw [runSingleTest_skipped_false] at hs
        exact absurd hs (by simp)
      · exact (mem_skippedList r rest (i + 1) h).2.1

/-- Helper: positional (option-valued) form of the skipped tail. -/
theorem skippedList_get? : ∀ (ds : List TestDefM) (i j : Nat),
    (skippedList ds i).get? j = (ds.get? j).map (fun d => skippedOutcome d (i + j)) := by
  intro ds
  induction ds with
  | nil => intro i j; cases j <;> rfl
  | cons d rest ih =>
    intro i j
    cases j with
    | zero => rfl
    | succ j =>
      have hidx : i + (j + 1) = i + 1 + j := by omega
      simp only [skippedList, List.get?_cons_succ, ih (i + 1) j, hidx]

/-- Helper: the runner's outcomes carry the definitions' names in
definition order. -/
theorem runTestsGo_name_get? (exec : Nat → Nat → Option String) :
    ∀ (defs : List TestDefM) (i j : Nat),
      ((runTestsGo exec defs i).get? j).map (fun r => r.name) =
        (defs.get? j).map (fun d => testNameOf d (i + j)) := by
  intro defs
  induction defs with
  | nil => intro i j; cases j <;> rfl
  | cons d rest ih =>
    intro i j
    by_cases hp : (runSingleTest d i (exec i)).passed
    · cases j with
      | zero =>
        simp only [runTestsGo]
        rw [if_pos hp]
        simp [runSingleTest_name]
      | succ j =>
        have hidx : i + (j + 1) = i + 1 + j := by omega
        simp only [runTestsGo]
        rw [if_pos hp]
        simp only [List.get?_cons_succ, ih (i + 1) j, hidx]
    · cases j with
      | zero =>
        simp only [runTestsGo]
        rw [if_neg hp]
        simp [runSingleTest_name]
      | succ j =>
        have hidx : i + (j + 1) = i + 1 + j := by omega
        simp only [runTestsGo]
        rw [if_neg hp]
        simp only [List.get?_cons_succ, skippedList_get? rest (i + 1) j, hidx]
        cases rest.get? j <;> rfl

/-- Helper: passed / failed / skipped partition every outcome list in
which no outcome is both passed and skipped. -/
theorem outcome_partition : ∀ (rs : List TestOutcome),
    (∀ r ∈ rs, r.skipped = true → r.passed = false) →
    (rs.filter (fun r => r.passed)).length +
      (rs.filter (fun r => !r.passed && !r.skipped)).length +
      (rs.filter (fun r => r.skipped)).length = rs.length := by
  intro rs
  induction rs with
  | nil => intro _; rfl
  | cons r rest ih =>
    intro h
    have hrest := ih (fun x hx => h x (List.mem_cons_of_mem r hx))
    have hr := h r (List.mem_cons_self r rest)
    by_cases hp : r.passed
    · have hs : r.skipped = false := by
        by_contra hc
        have : r.skipped = true := by simpa using hc
        rw [hr this] at hp
        exact absurd hp (by simp)
      simp [List.filter, hp, hs]
      omega
    · have hp' : r.passed = false := by simpa using hp
      by_cases hs : r.skipped
      · simp [List.filter, hp', hs]
        omega
      · have hs' : r.skipped = false := by simpa using hs
        simp [List.filter, hp', hs']
        omega

/-- C10: for every batch the runner completes, the aggregate counts
partition the total, the results list has exactly one entry per
definition in definition order (names included), and every skipped entry
has `passed = false`. -/
theorem C10_runresult_invariants (defs : List TestDefM) (exec : Nat → Nat → Option String)
    (hne : defs ≠ []) :
    (runTests defs exec).passed + (runTests defs exec).failed + (runTests defs exec).skipped =
      (runTests defs exec).total ∧
    (runTests defs exec).results.length = (runTests defs exec).total ∧
    (∀ j, ((runTests defs exec).results.get? j).map (fun r => r.name) =
      (defs.get? j).map (fun d => testNameOf d j)) ∧
    (∀ r ∈ (runTests defs exec).results, r.skipped = true → r.passed = false) := by
  refine ⟨?_, ?_, ?_, ?_⟩
  · have h := outcome_partition (runTestsGo exec defs 0)
      (fun r hr => mem_runTestsGo_skipped exec r defs 0 hr)
    simp only [runTests]
    rw [h, runTestsGo_length]
  · simp only [runTests]
    rw [runTestsGo_length]
  · intro j
    simpa using runTestsGo_name_get? exec defs 0 j
  · intro r hr
    exact mem_runTestsGo_skipped exec r defs 0 hr

/-- Witness for C10 at a concrete three-test batch whose second test
fails. -/
theorem C10_runresult_invariants_witness :
    (runTests [{}, { retries := some 1 }, {}]
        (fun i _ => if i = 1 then some "boom" else none)).passed +
      (runTests [{}, { retries := some 1 }, {}]
        (fun i _ => if i = 1 then some "boom" else none)).failed +
      (runTests [{}, { retries := some 1 }, {}]
        (fun i _ => if i = 1 then some "boom" else none)).skipped =
      (runTests [{}, { retries := some 1 }, {}]
        (fun i _ => if i = 1 then some "boom" else none)).total := by
  exact (C10_runresult_invariants [{}, { retries := some 1 }, {}]
    (fun i _ => if i = 1 then some "boom" else none) (by simp)).1

/-- Helper: when the first `k0` definitions pass and the next one fails,
the runner's results decompose into the passing prefix, the failing
outcome, and the skipped tail. -/
theorem runTestsGo_decomp (exec : Nat → Nat → Option String) :
    ∀ (defs : List TestDefM) (i k0 : Nat) (hk : k0 < defs.length),
      (∀ j (hj : j < k0),
        (runSingleTest (defs.get ⟨j, Nat.lt_trans hj hk⟩) (i + j) (exec (i + j))).passed = true) →
      (runSingleTest (defs.get ⟨k0, hk⟩) (i + k0) (exec (i + k0))).passed = false →
      ∃ pre, runTestsGo exec defs i =
          pre ++ runSingleTest (defs.get ⟨k0, hk⟩) (i + k0) (exec (i + k0))
              :: skippedList (defs.drop (k0 + 1)) (i + k0 + 1) ∧
        pre.length = k0 ∧
        (∀ r ∈ pre, r.passed = true ∧ r.skipped = false) := by
  intro defs
  induction defs with
  | nil => intro i k0 hk; simp at hk
  | cons d rest ih =>
    intro i k0 hk hpass hfail
    cases k0 with
    | zero =>
      refine ⟨[], ?_, rfl, by simp⟩
      have h0 : (runSingleTest d i (exec i)).passed = false := by
        simpa using hfail
      simp only [runTestsGo]
      rw [if_neg (by simp [h0])]
      simp
    | succ k0' =>
      have hd : (runSingleTest d i (exec i)).passed = true := by
        have h := hpass 0 (Nat.succ_pos k0')
        simpa using h
      have hstep : runTestsGo exec (d :: rest) i =
          runSingleTest d i (exec i) :: runTestsGo exec rest (i + 1) := by
        simp only [runTestsGo]
        rw [if_pos hd]
      have hk' : k0' < rest.length := by simpa using hk
      have hpass' : ∀ j (hj : j < k0'),
          (runSingleTest (rest.get ⟨j, Nat.lt_trans hj hk'⟩) (i + 1 + j) (exec (i + 1 + j))).passed = true := by
        intro j hj
        have h := hpass (j + 1) (Nat.succ_lt_succ hj)
        have hidx : i + (j + 1) = i + 1 + j := by omega
        rw [hidx] at h
        exact h
      have hfail' : (runSingleTest (rest.get ⟨k0', hk'⟩) (i + 1 + k0') (exec (i + 1 + k0'))).passed = false := by
        have h := hfail
        have hidx : i + (k0' + 1) = i + 1 + k0' := by omega
        rw [hidx] at h
        exact h
      obtain ⟨pre', heq, hlen, hall⟩ := ih (i + 1) k0' hk' hpass' hfail'
      refine ⟨runSingleTest d i (exec i) :: pre', ?_, by simp [hlen], ?_⟩
      · rw [hstep, heq]
        have hidx : i + 1 + k0' = i + (k0' + 1) := by omega
        simp only [List.cons_append]
        rw [hidx]
        rfl
      · intro r hr
        rcases List.mem_cons.mp hr with h | h
        · subst h
          exact ⟨hd, runSingleTest_skipped_false d i (exec i)⟩
        · exact hall r h

/-- C1: in a batch where the `k`-th (1-indexed) definition fails on its
final retry attempt (every attempt within its budget throws) and all
earlier definitions pass, the runner reports exactly `k-1` passed, 1
failed and `N-k` skipped, and every outcome from position `k+1` on is
marked skipped with `attempts = 0`. -/
theorem C1_fail_fast_counts (defs : List TestDefM) (exec : Nat → Nat → Option String) (k : Nat)
    (hk1 : 1 ≤ k) (hkN : k ≤ defs.length)
    (hpass : ∀ j (hj : j < k - 1),
      ∃ a, a < allowedAttempts (defs.get ⟨j, by omega⟩) ∧ exec j a = none)
    (hfail : ∀ a, a < allowedAttempts (defs.get ⟨k - 1, by omega⟩) → exec (k - 1) a ≠ none) :
    (runTests defs exec).passed = k - 1 ∧
    (runTests defs exec).failed = 1 ∧
    (runTests defs exec).skipped = defs.length - k ∧
    (∀ r ∈ (runTests defs exec).results.drop k, r.skipped = true ∧ r.attempts = 0) := by
  have hk0 : k - 1 < defs.length := by omega
  have hpass' : ∀ j (hj : j < k - 1),
      (runSingleTest (defs.get ⟨j, Nat.lt_trans hj hk0⟩) (0 + j) (exec (0 + j))).passed = true := by
    intro j hj
    rw [runSingleTest_passed_iff]
    have h := hpass j hj
    simpa using h
  have hfail' : (runSingleTest (defs.get ⟨k - 1, hk0⟩) (0 + (k - 1)) (exec (0 + (k - 1)))).passed = false := by
    have hne : ¬ ((runSingleTest (defs.get ⟨k - 1, hk0⟩) (0 + (k - 1)) (exec (0 + (k - 1)))).passed = true) := by
      rw [runSingleTest_passed_iff]
      rintro ⟨a, ha, hex⟩
      refine hfail a ha ?_
      simpa using hex
    exact Bool.eq_false_iff.mpr hne
  obtain ⟨pre, heq, hlen, hall⟩ := runTestsGo_decomp exec defs 0 (k - 1) hk0 hpass' hfail'
  simp only [Nat.zero_add] at heq hfail'
  have hfailSkipped : (runSingleTest (defs.get ⟨k - 1, hk0⟩) (k - 1) (exec (k - 1))).skipped = false :=
    runSingleTest_skipped_false _ _ _
  have hskMem : ∀ r ∈ skippedList (defs.drop (k - 1 + 1)) (k - 1 + 1),
      r.skipped = true ∧ r.passed = false ∧ r.attempts = 0 :=
    fun r hr => mem_skippedList r _ _ hr
  simp only [List.get_eq_getElem] at heq hfail' hfailSkipped
  refine ⟨?_, ?_, ?_, ?_⟩
  · show ((runTestsGo exec defs 0).filter (fun r => r.passed)).length = k - 1
    rw [heq, List.filter_append, List.length_append, List.filter_cons]
    have h1 : pre.filter (fun r => r.passed) = pre :=
      List.filter_eq_self.mpr (fun r hr => (hall r hr).1)
    have h2 : (skippedList (defs.drop (k - 1 + 1)) (k - 1 + 1)).filter (fun r => r.passed) = [] :=
      List.filter_eq_nil_iff.mpr (fun r hr => by simp [(hskMem r hr).2.1])
    rw [h1, hlen]
    simp [hfail', h2]
  · show ((runTestsGo exec defs 0).filter (fun r => !r.passed && !r.skipped)).length = 1
    rw [heq, List.filter_append, List.length_append, List.filter_cons]
    have h1 : pre.filter (fun r => !r.passed && !r.skipped) = [] :=
      List.filter_eq_nil_iff.mpr (fun r hr => by simp [(hall r hr).1])
    have h2 : (skippedList (defs.drop (k - 1 + 1)) (k - 1 + 1)).filter
        (fun r => !r.passed && !r.skipped) = [] :=
      List.filter_eq_nil_iff.mpr (fun r hr => by simp [(hskMem r hr).1])
    rw [h1]
    simp [hfail', hfailSkipped, h2]
  · show ((runTestsGo exec defs 0).filter (fun r => r.skipped)).length = defs.length - k
    rw [heq, List.filter_append, List.length_append, List.filter_cons]
    have h1 : pre.filter (fun r => r.skipped) = [] :=
      List.filter_eq_nil_iff.mpr (fun r hr => by simp [(hall r hr).2])
    have h2 : (skippedList (defs.drop (k - 1 + 1)) (k - 1 + 1)).filter
        (fun r => r.skipped) = skippedList (defs.drop (k - 1 + 1)) (k - 1 + 1) :=
      List.filter_eq_self.mpr (fun r hr => by simp [(hskMem r hr).1])
    rw [h1]
    simp [hfailSkipped, h2, skippedList_length, List.length_drop]
    omega
  · intro r hr
    have hdrop : (runTests defs exec).results.drop k =
        skippedList (defs.drop (k - 1 + 1)) (k - 1 + 1) := by
      show (runTestsGo exec defs 0).drop k = _
      rw [heq]
      rw [show pre ++ runSingleTest defs[k - 1] (k - 1) (exec (k - 1))
          :: skippedList (defs.drop (k - 1 + 1)) (k - 1 + 1) =
          (pre ++ [runSingleTest defs[k - 1] (k - 1) (exec (k - 1))]) ++
            skippedList (defs.drop (k - 1 + 1)) (k - 1 + 1) by simp,
        List.drop_left' (by simp [hlen]; omega)]
    rw [hdrop] at hr
    exact ⟨(hskMem r hr).1, (hskMem r hr).2.2⟩

/-- Witness for C1: a three-test batch whose second definition (with
`retries: 1`) throws on both attempts reports 1 passed, 1 failed, 1
skipped, and the third outcome is skipped with zero attempts. -/
theorem C1_fail_fast_counts_witness :
    (runTests [{}, { retries := some 1 }, {}]
        (fun i _ => if i = 1 then some "boom" else none)).passed = 1 ∧
    (runTests [{}, { retries := some 1 }, {}]
        (fun i _ => if i = 1 then some "boom" else none)).failed = 1 ∧
    (runTests [{}, { retries := some 1 }, {}]
        (fun i _ => if i = 1 then some "boom" else none)).skipped = 1 ∧
    (∀ r ∈ (runTests [{}, { retries := some 1 }, {}]
        (fun i _ => if i = 1 then some "boom" else none)).results.drop 2,
      r.skipped = true ∧ r.attempts = 0) := by
  have h := C1_fail_fast_counts [{}, { retries := some 1 }, {}]
    (fun i _ => if i = 1 then some "boom" else none) 2 (by decide) (by decide)
    (by
      intro j hj
      have hj0 : j = 0 := by omega
      subst hj0
      exact ⟨0, Nat.zero_lt_one, rfl⟩)
    (by
      intro a ha hcontra
      simp at hcontra)
  simpa using h

/-- Helper: element-wise characterization of the array branch of
`deepCompare`. -/
theorem deepCompareArr_iff : ∀ (xs ys : List JVal),
    deepCompareArr xs ys = true ↔
      (xs.length = ys.length ∧ ∀ (i : Nat) (h1 : i < xs.length) (h2 : i < ys.length),
        deepCompare (xs.get ⟨i, h1⟩) (ys.get ⟨i, h2⟩) = true) := by
  intro xs
  induction xs with
  | nil =>
    intro ys
    cases ys with
    | nil => simp [deepCompareArr]
    | cons y ys => simp [deepCompareArr]
  | cons x xs ih =>
    intro ys
    cases ys with
    | nil => simp [deepCompareArr]
    | cons y ys =>
      simp only [deepCompareArr, Bool.and_eq_true, ih ys]
      constructor
      · rintro ⟨hxy, hlen, hall⟩
        refine ⟨by simp [hlen], ?_⟩
        intro i h1 h2
        cases i with
        | zero => exact hxy
        | succ j => exact hall j (by simpa using h1) (by simpa using h2)
      · rintro ⟨hlen, hall⟩
        refine ⟨hall 0 (by simp) (by simp), by simpa using hlen, ?_⟩
        intro j hj1 hj2
        exact hall (j + 1) (by simpa using hj1) (by simpa using hj2)

/-- Helper: a key of an object has a value binding. -/
theorem mem_jKeys_iff (f : List (String × JVal)) (k : String) :
    k ∈ jKeys f ↔ ∃ v, (k, v) ∈ f := by
  simp only [jKeys, List.mem_map]
  constructor
  · rintro ⟨⟨a, b⟩, hm, rfl⟩
    exact ⟨b, hm⟩
  · rintro ⟨v, hv⟩
    exact ⟨⟨k, v⟩, hv, rfl⟩

/-- Helper: under duplicate-free keys, `jGet` returns the value of the
unique binding. -/
theorem jGet_of_mem_nodup : ∀ (f : List (String × JVal)) (k : String) (v : JVal),
    (jKeys f).Nodup → (k, v) ∈ f → jGet f k = v := by
  intro f
  induction f with
  | nil => intro k v _ h; simp at h
  | cons p rest ih =>
    intro k v hnd hmem
    obtain ⟨k', v'⟩ := p
    have hnd' := hnd
    simp only [jKeys, List.map_cons, List.nodup_cons] at hnd'
    rcases List.mem_cons.mp hmem with h | h
    · obtain ⟨hk, hv⟩ := Prod.mk.injEq k' v' k v ▸ h.symm
      subst hk
      subst hv
      simp [jGet]
    · have hk : k' ≠ k := by
        intro he
        subst he
        exact hnd'.1 ((mem_jKeys_iff rest k').mpr ⟨v, h⟩)
      have hbeq : (k' == k) = false := by simpa using hk
      have : jGet ((k', v') :: rest) k = jGet rest k := by
        simp [jGet, List.find?, hbeq]
      rw [this]
      exact ih k v hnd'.2 h

/-- Helper: a present key resolves to a binding of the object. -/
theorem jGet_mem (f : List (String × JVal)) (k : String) (h : k ∈ jKeys f) :
    (k, jGet f k) ∈ f := by
  obtain ⟨v, hv⟩ := (mem_jKeys_iff f k).mp h
  have hsome : ∃ p, f.find? (fun p => p.1 == k) = some p := by
    rw [← Option.isSome_iff_exists, List.find?_isSome]
    exact ⟨(k, v), hv, by simp⟩
  obtain ⟨p, hp⟩ := hsome
  have hmem := List.mem_of_find?_eq_some hp
  have hkey : p.1 = k := by simpa using List.find?_some hp
  have : jGet f k = p.2 := by simp [jGet, hp]
  rw [this]
  rw [← hkey]
  exact hmem

/-- Helper: the field loop of `deepCompare` checks exactly that every
binding of the first object has a deep-equal counterpart in the second. -/
theorem deepCompareFields_iff : ∀ (f1 f2 : List (String × JVal)),
    deepCompareFields f1 f2 = true ↔
      ∀ k v, (k, v) ∈ f1 →
        ((jKeys f2).contains k = true ∧ deepCompare v (jGet f2 k) = true) := by
  intro f1
  induction f1 with
  | nil => intro f2; simp [deepCompareFields]
  | cons p rest ih =>
    intro f2
    obtain ⟨k', v'⟩ := p
    simp only [deepCompareFields, Bool.and_eq_true, ih]
    constructor
    · rintro ⟨⟨hc, hd⟩, hrest⟩
      intro k v hmem
      rcases List.mem_cons.mp hmem with h | h
      · obtain ⟨hk, hv⟩ := Prod.mk.injEq k' v' k v ▸ h.symm
        subst hk
        subst hv
        exact ⟨hc, hd⟩
      · exact hrest k v h
    · intro hall
      refine ⟨?_, fun k v h => hall k v (List.mem_cons_of_mem _ h)⟩
      exact hall k' v' (List.mem_cons_self _ _)

/-- Helper: characterization of object comparison under duplicate-free
keys — equal key sets and recursively equal values. -/
theorem deepCompare_obj_iff (f1 f2 : List (String × JVal))
    (h1 : (jKeys f1).Nodup) (h2 : (jKeys f2).Nodup) :
    deepCompare (.obj f1) (.obj f2) = true ↔
      ((jKeys f1).toFinset = (jKeys f2).toFinset ∧
        ∀ k ∈ jKeys f1, deepCompare (jGet f1 k) (jGet f2 k) = true) := by
  simp only [deepCompare, Bool.and_eq_true, beq_iff_eq, deepCompareFields_iff]
  constructor
  · rintro ⟨hlen, hfields⟩
    have hsub : (jKeys f1).toFinset ⊆ (jKeys f2).toFinset := by
      intro k hk
      rw [List.mem_toFinset] at hk ⊢
      obtain ⟨v, hv⟩ := (mem_jKeys_iff f1 k).mp hk
      have := (hfields k v hv).1
      simpa using this
    have hcard : (jKeys f2).toFinset.card ≤ (jKeys f1).toFinset.card := by
      rw [List.toFinset_card_of_nodup h1, List.toFinset_card_of_nodup h2]
      omega
    refine ⟨Finset.eq_of_subset_of_card_le hsub hcard, ?_⟩
    intro k hk
    have hmem := jGet_mem f1 k hk
    exact (hfields k (jGet f1 k) hmem).2
  · rintro ⟨hset, hvals⟩
    have hlen : (jKeys f1).length = (jKeys f2).length := by
      rw [← List.toFinset_card_of_nodup h1, ← List.toFinset_card_of_nodup h2, hset]
    refine ⟨hlen, ?_⟩
    intro k v hmem
    have hk1 : k ∈ jKeys f1 := (mem_jKeys_iff f1 k).mpr ⟨v, hmem⟩
    have hk2 : k ∈ jKeys f2 := by
      have := hset ▸ (List.mem_toFinset.mpr hk1)
      exact List.mem_toFinset.mp this
    refine ⟨by simpa using hk2, ?_⟩
    rw [← jGet_of_mem_nodup f1 k v h1 hmem]
    exact hvals k hk1

/-- C5: the `equals` comparator is exactly `deepCompare`, and
`deepCompare` is structural deep equality — primitives by value, arrays
element-wise with equal length, an array never equal to a non-array, and
(duplicate-free) mappings by equal key sets with recursively equal
values. -/
theorem C5_equals_structural_deep_equality :
    (∀ (rt : String → String → Bool) (tn : JVal → Option Int) (actual : JVal) (c : Comparison),
      c.comparator = "equals" → rawCompare rt tn actual c = some (deepCompare actual c.value)) ∧
    (∀ a b : Int, deepCompare (.num a) (.num b) = true ↔ a = b) ∧
    (∀ a b : String, deepCompare (.str a) (.str b) = true ↔ a = b) ∧
    (∀ a b : Bool, deepCompare (.bool a) (.bool b) = true ↔ a = b) ∧
    (∀ xs ys : List JVal, deepCompare (.arr xs) (.arr ys) = true ↔
      (xs.length = ys.length ∧ ∀ (i : Nat) (h1 : i < xs.length) (h2 : i < ys.length),
        deepCompare (xs.get ⟨i, h1⟩) (ys.get ⟨i, h2⟩) = true)) ∧
    (∀ (xs : List JVal) (v : JVal), (∀ ys, v ≠ JVal.arr ys) →
      deepCompare (.arr xs) v = false ∧ deepCompare v (.arr xs) = false) ∧
    (∀ f1 f2 : List (String × JVal), (jKeys f1).Nodup → (jKeys f2).Nodup →
      (deepCompare (.obj f1) (.obj f2) = true ↔
        ((jKeys f1).toFinset = (jKeys f2).toFinset ∧
          ∀ k ∈ jKeys f1, deepCompare (jGet f1 k) (jGet f2 k) = true))) := by
  refine ⟨?_, ?_, ?_, ?_, ?_, ?_, deepCompare_obj_iff⟩
  · intro rt tn actual c h
    unfold rawCompare
    rw [h]
    simp
  · intro a b
    simp [deepCompare]
  · intro a b
    simp [deepCompare]
  · intro a b
    simp [deepCompare]
  · intro xs ys
    simpa [deepCompare] using deepCompareArr_iff xs ys
  · intro xs v h
    cases v with
    | undefined => exact ⟨rfl, rfl⟩
    | null => exact ⟨rfl, rfl⟩
    | bool b => exact ⟨rfl, rfl⟩
    | num n => exact ⟨rfl, rfl⟩
    | str s => exact ⟨rfl, rfl⟩
    | arr ys => exact absurd rfl (h ys)
    | obj fs => exact ⟨rfl, rfl⟩

/-- Witness for C5: applying the mapping characterization to two concrete
objects that differ only in key order shows equal key sets and equal
values at every key. -/
theorem C5_equals_structural_deep_equality_witness :
    (jKeys [("a", JVal.num 1), ("b", JVal.str "x")]).toFinset =
      (jKeys [("b", JVal.str "x"), ("a", JVal.num 1)]).toFinset ∧
    ∀ k ∈ jKeys [("a", JVal.num 1), ("b", JVal.str "x")],
      deepCompare (jGet [("a", JVal.num 1), ("b", JVal.str "x")] k)
        (jGet [("b", JVal.str "x"), ("a", JVal.num 1)] k) = true := by
  exact (C5_equals_structural_deep_equality.2.2.2.2.2.2
    [("a", JVal.num 1), ("b", JVal.str "x")] [("b", JVal.str "x"), ("a", JVal.num 1)]
    (by decide) (by decide)).mp rfl
